import Mathlib

/-!
Shallow embedding of `src/server/server.js` (Park Master Pro backend).

JavaScript runtime values that can appear in this server are modelled by
`Json` (JSON values plus `undefined`, which arises from missing-property
access).  File contents, request bodies and responses are all `Json`.
-/

set_option autoImplicit false

/-- A JavaScript value as it occurs in the server: a JSON value or `undefined`. -/
inductive Json where
  | undefined : Json
  | null : Json
  | bool (b : Bool) : Json
  | num (n : Int) : Json
  | str (s : String) : Json
  | arr (elems : List Json) : Json
  | obj (fields : List (String × Json)) : Json

/-- First binding of a key in an association list (`obj` property lookup). -/
def lookupProp : List (String × Json) → String → Option Json
  | [], _ => none
  | (k, v) :: rest, key => if k == key then some v else lookupProp rest key

/-- JavaScript truthiness of a value (`if (x)`). -/
def truthy : Json → Bool
  | .undefined => false
  | .null => false
  | .bool b => b
  | .num n => n != 0
  | .str s => s != ""
  | .arr _ => true
  | .obj _ => true

/-- Errors a handler body can throw: property access on `null`/`undefined`
(TypeError), `JSON.parse` failure, or a non-ENOENT file-system error. -/
inductive JsErr where
  | typeError : JsErr
  | parseError : JsErr
  | ioFault : JsErr
deriving DecidableEq

/-- JavaScript property access `j[k]`: throws on `null`/`undefined`,
yields `undefined` on primitives and on missing keys. -/
def getField : Json → String → Except JsErr Json
  | .undefined, _ => .error .typeError
  | .null, _ => .error .typeError
  | .obj fs, k => .ok ((lookupProp fs k).getD .undefined)
  | _, _ => .ok .undefined

/-- Total variant of property access (used where a throw is impossible). -/
def getFieldD (j : Json) (k : String) : Json :=
  match j with
  | .obj fs => (lookupProp fs k).getD .undefined
  | _ => .undefined

/-- JavaScript strict equality `===` between two runtime values that come
from distinct sources (body vs. file), so two objects/arrays are never the
same reference and compare unequal. -/
def strictEq : Json → Json → Bool
  | .undefined, .undefined => true
  | .null, .null => true
  | .bool a, .bool b => a == b
  | .num a, .num b => a == b
  | .str a, .str b => a == b
  | _, _ => false

/-- Keys of an association list are pairwise distinct (as produced by
`JSON.parse`, which keeps at most one binding per key). -/
def nodupKeys : List (String × Json) → Bool
  | [] => true
  | (k, _) :: rest => !(rest.any (fun p => p.1 == k)) && nodupKeys rest

mutual
/-- The value obtained by re-parsing `JSON.stringify` of a value:
object properties whose value is `undefined` are dropped, `undefined`
array elements become `null`. -/
def stringifyNorm : Json → Json
  | .arr xs => .arr (normArr xs)
  | .obj fs => .obj (normObj fs)
  | j => j

def normArr : List Json → List Json
  | [] => []
  | x :: xs =>
    (match stringifyNorm x with
     | .undefined => .null
     | v => v) :: normArr xs

def normObj : List (String × Json) → List (String × Json)
  | [] => []
  | (k, v) :: fs =>
    match stringifyNorm v with
    | .undefined => normObj fs
    | w => (k, w) :: normObj fs
end

mutual
/-- A well-formed parsed-JSON value: no `undefined` anywhere and no
duplicate object keys (every output of `JSON.parse` is of this shape). -/
def wfJson : Json → Bool
  | .undefined => false
  | .null => true
  | .bool _ => true
  | .num _ => true
  | .str _ => true
  | .arr xs => wfArr xs
  | .obj fs => nodupKeys fs && wfObj fs

def wfArr : List Json → Bool
  | [] => true
  | x :: xs => wfJson x && wfArr xs

def wfObj : List (String × Json) → Bool
  | [] => true
  | (_, v) :: fs => wfJson v && wfObj fs
end

mutual
/-- `JSON.stringify` then `JSON.parse` is the identity on parsed-JSON values. -/
theorem stringifyNorm_wf : ∀ j : Json, wfJson j = true → stringifyNorm j = j
  | .undefined, h => by simp [wfJson] at h
  | .null, _ => rfl
  | .bool _, _ => rfl
  | .num _, _ => rfl
  | .str _, _ => rfl
  | .arr xs, h => by
      simp only [stringifyNorm]
      rw [normArr_wf xs (by simpa [wfJson] using h)]
  | .obj fs, h => by
      simp only [stringifyNorm]
      rw [normObj_wf fs (by simp [wfJson] at h; exact h.2)]

theorem normArr_wf : ∀ xs : List Json, wfArr xs = true → normArr xs = xs
  | [], _ => rfl
  | x :: xs, h => by
      have h1 : wfJson x = true := by simp [wfArr] at h; exact h.1
      have h2 : wfArr xs = true := by simp [wfArr] at h; exact h.2
      simp only [normArr]
      rw [stringifyNorm_wf x h1, normArr_wf xs h2]
      cases x <;> simp_all [wfJson]

theorem normObj_wf : ∀ fs : List (String × Json), wfObj fs = true → normObj fs = fs
  | [], _ => rfl
  | (k, v) :: fs, h => by
      have h1 : wfJson v = true := by simp [wfObj] at h; exact h.1
      have h2 : wfObj fs = true := by simp [wfObj] at h; exact h.2
      simp only [normObj]
      rw [stringifyNorm_wf v h1, normObj_wf fs h2]
      cases v <;> simp_all [wfJson]
end

/-!  The local document store: one JSON file per collection plus the
aggregate backup file, in the data directory (`readJsonFile` /
`writeJsonFile` in `server.js`).  -/

/-- State of one file: missing, holding parseable JSON content, holding
content `JSON.parse` rejects, or failing to read with a non-ENOENT error. -/
inductive FileState where
  | absent : FileState
  | json (j : Json) : FileState
  | corrupt : FileState
  | ioFault : FileState

/-- `writeJsonFile(filePath, data)`: the file afterwards holds
`JSON.stringify(data, null, 2)`, which re-parses to `stringifyNorm data`. -/
def writeJsonFile (data : Json) : FileState :=
  .json (stringifyNorm data)

/-- `readJsonFile(filePath, defaultValue)`: parse the file; on ENOENT write
the default and return it; propagate any other error (including parse
failure) to the caller. -/
def readJsonFile : FileState → Json → Except JsErr (Json × FileState)
  | .absent, defaultValue => .ok (defaultValue, writeJsonFile defaultValue)
  | .json j, _ => .ok (j, .json j)
  | .corrupt, _ => .error .parseError
  | .ioFault, _ => .error .ioFault

/-- The five data files of the server (`VEHICLES_FILE`, …, `BACKUP_FILE`). -/
structure FS where
  vehicles : FileState
  permanentClients : FileState
  settings : FileState
  dailyStats : FileState
  backup : FileState

/-- A freshly provisioned data directory: no file exists yet. -/
def freshFS : FS :=
  { vehicles := .absent, permanentClients := .absent, settings := .absent
    dailyStats := .absent, backup := .absent }

/-- The `defaultSettings` constant of `server.js`. -/
def defaultSettings : Json :=
  .obj [("siteName", .str "Park Master Pro"),
        ("pricing", .obj [
          ("car", .obj [("baseHours", .num 2), ("baseFee", .num 50), ("extraHourFee", .num 25)]),
          ("bike", .obj [("baseHours", .num 2), ("baseFee", .num 20), ("extraHourFee", .num 10)]),
          ("rickshaw", .obj [("baseHours", .num 2), ("baseFee", .num 30), ("extraHourFee", .num 15)])]),
        ("credentials", .obj [("username", .str "admin"), ("password", .str "admin123")]),
        ("viewMode", .str "grid")]

/-!  The Supabase storage mirror.  `Remote.off` is the `supabase === null`
case (missing `SUPABASE_URL` / `SUPABASE_SERVICE_ROLE_KEY`); when
configured, the behaviour of a download and of an upload is fixed by the
external store's state.  -/

/-- What a `download('backup.json')` call would yield: content that parses
to `j`, an object-not-found error, or any other failure (network error or
unparseable content). -/
inductive PullOutcome where
  | got (j : Json) : PullOutcome
  | notFound : PullOutcome
  | err : PullOutcome

/-- The remote mirror configuration and behaviour. -/
inductive Remote where
  | off : Remote
  | on (pull : PullOutcome) (pushOk : Bool) : Remote

/-- Result value of `uploadBackupToSupabase`. -/
structure PushResult where
  ok : Bool
  reason : Option String

/-- Result value of `downloadBackupFromSupabase`. -/
structure PullResult where
  ok : Bool
  data : Option Json
  reason : Option String

/-- `uploadBackupToSupabase(backupData)` from `server.js`. -/
def uploadBackupToSupabase : Remote → Json → PushResult
  | .off, _ => { ok := false, reason := some "supabase_not_configured" }
  | .on _ true, _ => { ok := true, reason := none }
  | .on _ false, _ => { ok := false, reason := some "upload_failed" }

/-- `downloadBackupFromSupabase()` from `server.js`. -/
def downloadBackupFromSupabase : Remote → PullResult
  | .off => { ok := false, data := none, reason := some "supabase_not_configured" }
  | .on (.got j) _ => { ok := true, data := some j, reason := none }
  | .on .notFound _ => { ok := false, data := none, reason := some "not_found" }
  | .on .err _ => { ok := false, data := none, reason := some "download_failed" }

/-!  HTTP handlers.  A handler maps the current files (and remote state)
plus the parsed request to a response and the files afterwards.  -/

/-- An HTTP response: status code and the JSON value the body serializes. -/
structure Response where
  status : Nat
  body : Json

/-- `res.status(s).json(j)`: the body on the wire is `JSON.stringify j`. -/
def jsonResp (status : Nat) (j : Json) : Response :=
  { status := status, body := stringifyNorm j }

/-- JavaScript `a || b` specialised to the uses in `server.js`. -/
def jsOrElse (a b : Json) : Json :=
  if truthy a then a else b

/-- `Array.prototype.findIndex` with a callback that may throw;
`none` models the return value `-1`. -/
def findIndexJs (p : Json → Except JsErr Bool) : List Json → Except JsErr (Option Nat)
  | [] => .ok none
  | x :: rest => do
    if ← p x then
      return some 0
    else
      match ← findIndexJs p rest with
      | some i => return some (i + 1)
      | none => return none

/-- Pure counterpart of `findIndexJs` for a throw-free callback. -/
def findIdxPure (q : Json → Bool) : List Json → Option Nat
  | [] => none
  | x :: rest => if q x then some 0 else (findIdxPure q rest).map (· + 1)

/-- `.findIndex` exists only on arrays; on any other receiver the call
throws a TypeError. -/
def asArray : Json → Except JsErr (List Json)
  | .arr xs => .ok xs
  | _ => .error .typeError

/-- The callback `v => v.id === req.params.id` (route parameters are strings). -/
def idMatches (pid : String) (v : Json) : Except JsErr Bool := do
  let i ← getField v "id"
  return strictEq i (.str pid)

/-- The callback `s => s.date === req.body.date`. -/
def dateMatches (body s : Json) : Except JsErr Bool := do
  let sd ← getField s "date"
  let bd ← getField body "date"
  return strictEq sd bd

/-- Own enumerable properties contributed by `...x` inside an object
literal: objects give their fields, arrays and strings index-keyed
elements, all other values nothing. -/
def ownProps : Json → List (String × Json)
  | .obj fs => fs
  | .arr xs => xs.enum.map (fun p => (toString p.1, p.2))
  | .str s => s.data.enum.map (fun p => (toString p.1, .str (String.mk [p.2])))
  | _ => []

/-- Defining property `k` on an object under construction: overwrite the
(unique) existing binding in place, or append a new one. -/
def setProp : List (String × Json) → String → Json → List (String × Json)
  | [], k, v => [(k, v)]
  | (k1, w) :: rest, k, v =>
    if k1 == k then (k1, v) :: rest else (k1, w) :: setProp rest k v

/-- Properties of an object literal, defined left to right. -/
def objLitProps (entries : List (String × Json)) : List (String × Json) :=
  entries.foldl (fun acc e => setProp acc e.1 e.2) []

/-- An object literal such as `{...a, ...b}` or `{...v, exitTime: t, fee: f}`. -/
def objLit (entries : List (String × Json)) : Json :=
  .obj (objLitProps entries)

/-- Response bodies used by the handlers. -/
def msgBody (success : Bool) (message : String) : Json :=
  .obj [("success", .bool success), ("message", .str message)]

def errBody (message : String) : Json :=
  .obj [("error", .str message)]

/-- `POST /api/auth/login`: destructure the body, read the settings
document, compare the credentials; any thrown error becomes a 500. -/
def postAuthLogin (fs : FS) (body : Json) : Response × FS :=
  match getField body "username", getField body "password" with
  | .ok username, .ok password =>
    (match readJsonFile fs.settings defaultSettings with
     | .error _ => (jsonResp 500 (msgBody false "Server error"), fs)
     | .ok (settings, st) =>
       let fs1 : FS := { fs with settings := st }
       match (do
         let cr ← getField settings "credentials"
         let su ← getField cr "username"
         let sp ← getField cr "password"
         return (strictEq username su && strictEq password sp) : Except JsErr Bool) with
       | .error _ => (jsonResp 500 (msgBody false "Server error"), fs1)
       | .ok true => (jsonResp 200 (msgBody true "Login successful"), fs1)
       | .ok false => (jsonResp 401 (msgBody false "Invalid credentials"), fs1))
  | _, _ => (jsonResp 500 (msgBody false "Server error"), fs)

/-- The record written by `PUT /api/vehicles/:id/exit`:
`{...vehicles[vehicleIndex], exitTime: new Date().toISOString(), fee: req.body.fee}`. -/
def exitMergedRecord (v : Json) (now : String) (fee : Json) : Json :=
  objLit (ownProps v ++ [("exitTime", .str now), ("fee", fee)])

/-- `PUT /api/vehicles/:id/exit` (`now` is the exit timestamp the clock
would produce). -/
def putVehicleExit (fs : FS) (pid : String) (body : Json) (now : String) : Response × FS :=
  match readJsonFile fs.vehicles (.arr []) with
  | .error _ => (jsonResp 500 (errBody "Failed to update vehicle"), fs)
  | .ok (vj, st) =>
    let fs1 : FS := { fs with vehicles := st }
    match (do
      let vs ← asArray vj
      match ← findIndexJs (idMatches pid) vs with
      | none => return none
      | some i => do
        let fee ← getField body "fee"
        let merged := exitMergedRecord (vs.getD i .undefined) now fee
        return some (vs.set i merged, merged) : Except JsErr (Option (List Json × Json))) with
    | .error _ => (jsonResp 500 (errBody "Failed to update vehicle"), fs1)
    | .ok none => (jsonResp 404 (errBody "Vehicle not found"), fs1)
    | .ok (some (vs2, merged)) =>
      (jsonResp 200 merged, { fs1 with vehicles := writeJsonFile (.arr vs2) })

/-- The record written by `PUT /api/permanent-clients/:id`:
`{...clients[clientIndex], ...req.body}`. -/
def clientMergedRecord (old body : Json) : Json :=
  objLit (ownProps old ++ ownProps body)

/-- `PUT /api/permanent-clients/:id`. -/
def putPermanentClient (fs : FS) (pid : String) (body : Json) : Response × FS :=
  match readJsonFile fs.permanentClients (.arr []) with
  | .error _ => (jsonResp 500 (errBody "Failed to update permanent client"), fs)
  | .ok (cj, st) =>
    let fs1 : FS := { fs with permanentClients := st }
    match (do
      let cs ← asArray cj
      match ← findIndexJs (idMatches pid) cs with
      | none => return none
      | some i =>
        let merged := clientMergedRecord (cs.getD i .undefined) body
        return some (cs.set i merged, merged) : Except JsErr (Option (List Json × Json))) with
    | .error _ => (jsonResp 500 (errBody "Failed to update permanent client"), fs1)
    | .ok none => (jsonResp 404 (errBody "Client not found"), fs1)
    | .ok (some (cs2, merged)) =>
      (jsonResp 200 merged, { fs1 with permanentClients := writeJsonFile (.arr cs2) })

/-- `POST /api/daily-stats`: upsert `req.body` by its `date` field. -/
def postDailyStats (fs : FS) (body : Json) : Response × FS :=
  match readJsonFile fs.dailyStats (.arr []) with
  | .error _ => (jsonResp 500 (errBody "Failed to update daily stats"), fs)
  | .ok (sj, st) =>
    let fs1 : FS := { fs with dailyStats := st }
    match (do
      let stats ← asArray sj
      match ← findIndexJs (dateMatches body) stats with
      | some i => return stats.set i body
      | none => return stats ++ [body] : Except JsErr (List Json)) with
    | .error _ => (jsonResp 500 (errBody "Failed to update daily stats"), fs1)
    | .ok stats2 =>
      (jsonResp 200 body, { fs1 with dailyStats := writeJsonFile (.arr stats2) })

/-- `POST /api/backup`: write the whole body to the backup file, overwrite
each live file whose field is truthy in the body, then push to the remote
mirror best-effort; the response always reports success with a separate
`supabase` flag.  (The four property reads are grouped up front: they can
only throw when the body is `null`, in which case the first one throws
before any live file is written, exactly as in the source.) -/
def postBackup (remote : Remote) (fs : FS) (body : Json) : Response × FS :=
  let fs1 : FS := { fs with backup := writeJsonFile body }
  match (do
    let v ← getField body "vehicles"
    let p ← getField body "permanentClients"
    let s ← getField body "settings"
    let d ← getField body "dailyStats"
    return (v, p, s, d) : Except JsErr (Json × Json × Json × Json)) with
  | .error _ => (jsonResp 500 (errBody "Failed to save backup"), fs1)
  | .ok (v, p, s, d) =>
    let fs2 : FS := if truthy v then { fs1 with vehicles := writeJsonFile v } else fs1
    let fs3 : FS := if truthy p then { fs2 with permanentClients := writeJsonFile p } else fs2
    let fs4 : FS := if truthy s then { fs3 with settings := writeJsonFile s } else fs3
    let fs5 : FS := if truthy d then { fs4 with dailyStats := writeJsonFile d } else fs4
    let up := uploadBackupToSupabase remote body
    (jsonResp 200 (.obj [("success", .bool true), ("supabase", .bool up.ok)]), fs5)

/-- `GET /api/backup`: remote first, local fallback. -/
def getBackup (remote : Remote) (fs : FS) : Response × FS :=
  let down := downloadBackupFromSupabase remote
  if down.ok then
    (jsonResp 200 (jsOrElse (down.data.getD .undefined) (.obj [])), fs)
  else
    match readJsonFile fs.backup (.obj []) with
    | .error _ => (jsonResp 500 (errBody "Failed to load backup"), fs)
    | .ok (b, st) =>
      (jsonResp 200 (jsOrElse b (.obj [])), { fs with backup := st })

/-- The cold-start restore in `startServer`: if a remote snapshot is
obtained (and truthy), write its truthy fields to the live files and the
whole snapshot to the backup file; otherwise (or on any error) leave the
files as they are. -/
def startupRestore (remote : Remote) (fs : FS) : FS :=
  let down := downloadBackupFromSupabase remote
  match down.ok, down.data with
  | true, some b =>
    if truthy b then
      match (do
        let v ← getField b "vehicles"
        let p ← getField b "permanentClients"
        let s ← getField b "settings"
        let d ← getField b "dailyStats"
        return (v, p, s, d) : Except JsErr (Json × Json × Json × Json)) with
      | .error _ => fs
      | .ok (v, p, s, d) =>
        let fs1 : FS := if truthy v then { fs with vehicles := writeJsonFile v } else fs
        let fs2 : FS := if truthy p then { fs1 with permanentClients := writeJsonFile p } else fs1
        let fs3 : FS := if truthy s then { fs2 with settings := writeJsonFile s } else fs2
        let fs4 : FS := if truthy d then { fs3 with dailyStats := writeJsonFile d } else fs3
        { fs4 with backup := writeJsonFile b }
    else fs
  | _, _ => fs


/-!  Lemmas about property lookup, object literals and spreads.  -/

theorem lookupProp_eq_none {fs : List (String × Json)} {k : String}
    (h : ∀ p ∈ fs, p.1 ≠ k) : lookupProp fs k = none := by
  induction fs with
  | nil => rfl
  | cons p rest ih =>
    obtain ⟨k1, v⟩ := p
    have hk : k1 ≠ k := h (k1, v) (List.mem_cons_self _ _)
    simp only [lookupProp, beq_iff_eq, if_neg hk]
    exact ih fun q hq => h q (List.mem_cons_of_mem _ hq)

theorem lookupProp_mem {fs : List (String × Json)} {k : String} {v : Json}
    (h : lookupProp fs k = some v) : (k, v) ∈ fs := by
  induction fs with
  | nil => simp [lookupProp] at h
  | cons p rest ih =>
    obtain ⟨k1, w⟩ := p
    by_cases hk : k1 = k
    · subst hk
      simp only [lookupProp, beq_self_eq_true, if_pos] at h
      cases h
      exact List.mem_cons_self _ _
    · simp only [lookupProp, beq_iff_eq, if_neg hk] at h
      exact List.mem_cons_of_mem _ (ih h)

theorem lookupProp_setProp (fs : List (String × Json)) (k1 k : String) (v : Json) :
    lookupProp (setProp fs k1 v) k = if k1 = k then some v else lookupProp fs k := by
  induction fs with
  | nil =>
    by_cases hk : k1 = k <;> simp [setProp, lookupProp, hk]
  | cons p rest ih =>
    obtain ⟨k2, w⟩ := p
    by_cases h2 : k2 = k1
    · subst h2
      by_cases hk : k2 = k <;> simp [setProp, lookupProp, hk]
    · by_cases hk : k2 = k
      · subst hk
        have h2' : ¬(k1 = k2) := fun h => h2 h.symm
        simp [setProp, lookupProp, beq_iff_eq, h2, h2']
      · simp [setProp, lookupProp, beq_iff_eq, h2, hk, ih]

theorem mem_setProp {fs : List (String × Json)} {k : String} {v : Json} {p : String × Json}
    (h : p ∈ setProp fs k v) : p ∈ fs ∨ p.1 = k := by
  induction fs with
  | nil => simp [setProp] at h; simp [h]
  | cons q rest ih =>
    obtain ⟨k1, w⟩ := q
    by_cases h1 : k1 = k
    · subst h1
      simp only [setProp, beq_self_eq_true, if_pos] at h
      rcases List.mem_cons.mp h with h | h
      · right; simp [h]
      · left; exact List.mem_cons_of_mem _ h
    · simp only [setProp, beq_iff_eq, if_neg h1] at h
      rcases List.mem_cons.mp h with h | h
      · left; simp [h]
      · rcases ih h with h | h
        · left; exact List.mem_cons_of_mem _ h
        · right; exact h

theorem nodupKeys_setProp {fs : List (String × Json)} (k : String) (v : Json)
    (h : nodupKeys fs = true) : nodupKeys (setProp fs k v) = true := by
  induction fs with
  | nil => simp [setProp, nodupKeys]
  | cons p rest ih =>
    obtain ⟨k1, w⟩ := p
    simp only [nodupKeys, Bool.and_eq_true, Bool.not_eq_true'] at h
    by_cases h1 : k1 = k
    · subst h1
      simp only [setProp, beq_self_eq_true, if_pos, nodupKeys, Bool.and_eq_true,
        Bool.not_eq_true']
      exact h
    · simp only [setProp, beq_iff_eq, if_neg h1, nodupKeys, Bool.and_eq_true,
        Bool.not_eq_true']
      refine ⟨?_, ih h.2⟩
      rw [Bool.eq_false_iff]
      intro hany
      rw [List.any_eq_true] at hany
      obtain ⟨q, hq, hq1⟩ := hany
      rcases mem_setProp hq with hmem | hk
      · have : rest.any (fun p => p.1 == k1) = true := List.any_eq_true.mpr ⟨q, hmem, hq1⟩
        rw [h.1] at this
        exact Bool.false_ne_true this
      · rw [beq_iff_eq] at hq1
        exact h1 (hk ▸ hq1).symm

theorem wfObj_setProp {fs : List (String × Json)} {k : String} {v : Json}
    (hfs : wfObj fs = true) (hv : wfJson v = true) : wfObj (setProp fs k v) = true := by
  induction fs with
  | nil => simp [setProp, wfObj, hv]
  | cons p rest ih =>
    obtain ⟨k1, w⟩ := p
    simp only [wfObj, Bool.and_eq_true] at hfs
    by_cases h1 : k1 = k
    · subst h1
      simp only [setProp, beq_self_eq_true, if_pos, wfObj, Bool.and_eq_true]
      exact ⟨hv, hfs.2⟩
    · simp only [setProp, beq_iff_eq, if_neg h1, wfObj, Bool.and_eq_true]
      exact ⟨hfs.1, ih hfs.2⟩

/-- The last value bound to `k` in a list of property definitions. -/
def lastVal : List (String × Json) → String → Option Json
  | [], _ => none
  | (k1, v) :: rest, k =>
    match lastVal rest k with
    | some w => some w
    | none => if k1 == k then some v else none

theorem lookupProp_foldl_setProp (es : List (String × Json))
    (init : List (String × Json)) (k : String) :
    lookupProp (es.foldl (fun acc e => setProp acc e.1 e.2) init) k
      = match lastVal es k with
        | some w => some w
        | none => lookupProp init k := by
  induction es generalizing init with
  | nil => simp [lastVal]
  | cons e rest ih =>
    obtain ⟨k1, v⟩ := e
    simp only [List.foldl_cons, lastVal]
    rw [ih]
    cases hrest : lastVal rest k with
    | some w => simp
    | none =>
      simp only [lookupProp_setProp, beq_iff_eq]
      by_cases hk : k1 = k <;> simp [hk]

theorem lookupProp_objLitProps (es : List (String × Json)) (k : String) :
    lookupProp (objLitProps es) k = lastVal es k := by
  unfold objLitProps
  rw [lookupProp_foldl_setProp]
  cases lastVal es k <;> simp [lookupProp]

theorem lastVal_append (a b : List (String × Json)) (k : String) :
    lastVal (a ++ b) k
      = match lastVal b k with
        | some w => some w
        | none => lastVal a k := by
  induction a with
  | nil => simp [lastVal]; cases lastVal b k <;> simp
  | cons p rest ih =>
    obtain ⟨k1, v⟩ := p
    simp only [List.cons_append, lastVal, List.append_eq]
    rw [ih]
    cases lastVal b k <;> cases lastVal rest k <;> simp

theorem lastVal_eq_none {fs : List (String × Json)} {k : String}
    (h : ∀ p ∈ fs, p.1 ≠ k) : lastVal fs k = none := by
  induction fs with
  | nil => rfl
  | cons p rest ih =>
    obtain ⟨k1, v⟩ := p
    have hk : k1 ≠ k := h (k1, v) (List.mem_cons_self _ _)
    have : lastVal rest k = none := ih fun q hq => h q (List.mem_cons_of_mem _ hq)
    simp [lastVal, this, beq_iff_eq, hk]

theorem lastVal_nodup {fs : List (String × Json)} (k : String)
    (h : nodupKeys fs = true) : lastVal fs k = lookupProp fs k := by
  induction fs with
  | nil => rfl
  | cons p rest ih =>
    obtain ⟨k1, v⟩ := p
    simp only [nodupKeys, Bool.and_eq_true, Bool.not_eq_true'] at h
    by_cases hk : k1 = k
    · subst hk
      have hnone : lastVal rest k1 = none := by
        apply lastVal_eq_none
        intro q hq hq1
        have : rest.any (fun p => p.1 == k1) = true :=
          List.any_eq_true.mpr ⟨q, hq, by simp [hq1]⟩
        rw [h.1] at this
        exact Bool.false_ne_true this
      simp [lastVal, hnone, lookupProp]
    · simp [lastVal, ih h.2, lookupProp, beq_iff_eq, hk]
      cases hl : lookupProp rest k <;> simp

theorem nodupKeys_objLitProps (es : List (String × Json)) :
    nodupKeys (objLitProps es) = true := by
  unfold objLitProps
  suffices h : ∀ init, nodupKeys init = true →
      nodupKeys (es.foldl (fun acc e => setProp acc e.1 e.2) init) = true from
    h [] rfl
  induction es with
  | nil => intro init h; simpa using h
  | cons e rest ih =>
    intro init h
    exact ih _ (nodupKeys_setProp _ _ h)

theorem wfObj_objLitProps {es : List (String × Json)}
    (h : ∀ p ∈ es, wfJson p.2 = true) : wfObj (objLitProps es) = true := by
  unfold objLitProps
  suffices hgen : ∀ init, wfObj init = true →
      wfObj (es.foldl (fun acc e => setProp acc e.1 e.2) init) = true from
    hgen [] rfl
  induction es with
  | nil => intro init hi; simpa using hi
  | cons e rest ih =>
    intro init hi
    exact ih (fun p hp => h p (List.mem_cons_of_mem _ hp)) _
      (wfObj_setProp hi (h e (List.mem_cons_self _ _)))

theorem wfJson_objLit {es : List (String × Json)}
    (h : ∀ p ∈ es, wfJson p.2 = true) : wfJson (objLit es) = true := by
  unfold objLit
  rw [wfJson, Bool.and_eq_true]
  exact ⟨nodupKeys_objLitProps es, wfObj_objLitProps h⟩

/-!  Well-formedness accessors.  -/

theorem wfArr_iff {xs : List Json} :
    wfArr xs = true ↔ ∀ x ∈ xs, wfJson x = true := by
  induction xs with
  | nil => simp [wfArr]
  | cons x rest ih => simp [wfArr, ih]

theorem wfObj_iff {fs : List (String × Json)} :
    wfObj fs = true ↔ ∀ p ∈ fs, wfJson p.2 = true := by
  induction fs with
  | nil => simp [wfObj]
  | cons p rest ih =>
    obtain ⟨k, v⟩ := p
    simp [wfObj, ih]

theorem wfJson_arr_iff {xs : List Json} :
    wfJson (.arr xs) = true ↔ ∀ x ∈ xs, wfJson x = true := by
  rw [wfJson]; exact wfArr_iff

theorem wfJson_obj_parts {fs : List (String × Json)} (h : wfJson (.obj fs) = true) :
    nodupKeys fs = true ∧ ∀ p ∈ fs, wfJson p.2 = true := by
  rw [wfJson, Bool.and_eq_true] at h
  exact ⟨h.1, wfObj_iff.mp h.2⟩

theorem wfJson_getFieldD {j : Json} (k : String) (h : wfJson j = true)
    (hne : getFieldD j k ≠ .undefined) : wfJson (getFieldD j k) = true := by
  cases j with
  | obj fs =>
    simp only [getFieldD] at hne ⊢
    cases hl : lookupProp fs k with
    | none => simp [hl] at hne
    | some v =>
      simp only [hl, Option.getD_some]
      exact (wfJson_obj_parts h).2 (k, v) (lookupProp_mem hl)
  | undefined => simp [wfJson] at h
  | null => simp [getFieldD] at hne
  | bool b => simp [getFieldD] at hne
  | num n => simp [getFieldD] at hne
  | str s => simp [getFieldD] at hne
  | arr xs => simp [getFieldD] at hne

/-- On an object, throwing property access agrees with the total variant. -/
theorem getField_obj (fs : List (String × Json)) (k : String) :
    getField (.obj fs) k = .ok (getFieldD (.obj fs) k) := rfl

theorem getField_of_wf {j : Json} (k : String) (h : wfJson j = true)
    (hnull : j ≠ .null) : getField j k = .ok (getFieldD j k) := by
  cases j <;> simp_all [wfJson, getField, getFieldD]

/-!  `findIndex` lemmas.  -/

theorem findIndexJs_pure {p : Json → Except JsErr Bool} {q : Json → Bool}
    {xs : List Json} (h : ∀ x ∈ xs, p x = .ok (q x)) :
    findIndexJs p xs = .ok (findIdxPure q xs) := by
  induction xs with
  | nil => rfl
  | cons x rest ih =>
    have hx : p x = .ok (q x) := h x (List.mem_cons_self _ _)
    have hrest := ih fun y hy => h y (List.mem_cons_of_mem _ hy)
    simp only [findIndexJs, findIdxPure, hx, hrest, bind, Except.bind, pure, Except.pure]
    by_cases hq : q x = true
    · simp [hq]
    · rw [Bool.not_eq_true] at hq
      simp only [hq, if_false, Bool.false_eq_true]
      cases findIdxPure q rest <;> simp [Option.map]

theorem findIdxPure_eq_none {q : Json → Bool} {xs : List Json} :
    findIdxPure q xs = none ↔ ∀ x ∈ xs, q x = false := by
  induction xs with
  | nil => simp [findIdxPure]
  | cons x rest ih =>
    by_cases hq : q x = true
    · simp [findIdxPure, hq]
    · rw [Bool.not_eq_true] at hq
      simp only [findIdxPure, hq, Bool.false_eq_true, if_false, List.mem_cons]
      constructor
      · intro hnone
        have h0 : findIdxPure q rest = none := by
          cases hfr : findIdxPure q rest with
          | none => rfl
          | some i => rw [hfr] at hnone; simp at hnone
        rintro y (rfl | hy)
        · exact hq
        · exact ih.mp h0 y hy
      · intro hall
        rw [ih.mpr fun y hy => hall y (Or.inr hy)]
        rfl

theorem findIdxPure_some {q : Json → Bool} {xs : List Json} {i : Nat}
    (h : findIdxPure q xs = some i) :
    ∃ hi : i < xs.length, q (xs.get ⟨i, hi⟩) = true := by
  induction xs generalizing i with
  | nil => simp [findIdxPure] at h
  | cons x rest ih =>
    by_cases hq : q x = true
    · simp only [findIdxPure, hq, if_true] at h
      cases h
      exact ⟨by simp, by simpa using hq⟩
    · rw [Bool.not_eq_true] at hq
      simp only [findIdxPure, hq, Bool.false_eq_true, if_false] at h
      cases hfr : findIdxPure q rest with
      | none => rw [hfr] at h; simp at h
      | some i0 =>
        rw [hfr] at h
        simp only [Option.map_some'] at h
        obtain ⟨hlt, hget⟩ := ih hfr
        cases h
        exact ⟨by simpa using Nat.succ_lt_succ hlt, by simpa using hget⟩

/-!  `strictEq` is symmetric and transitive (it is never reflexive on
objects/arrays here, matching reference inequality of distinct values).  -/

theorem strictEq_symm (a b : Json) : strictEq a b = strictEq b a := by
  cases a <;> cases b <;> simp [strictEq] <;> exact ⟨fun h => h.symm, fun h => h.symm⟩

theorem strictEq_trans {a b c : Json} (h1 : strictEq a b = true)
    (h2 : strictEq b c = true) : strictEq a c = true := by
  cases a <;> cases b <;> cases c <;> simp_all [strictEq]

/-!  Claims.  -/

/-- C5: Document Store read with default materialization: reading a missing
document returns the default and persists it, so a subsequent read returns
the same default document; a malformed-content or other I/O error
propagates unmodified to the caller. -/
theorem c5_document_store_read (d : Json) (hwf : wfJson d = true) :
    (∃ st1, readJsonFile FileState.absent d = .ok (d, st1)
      ∧ st1 = writeJsonFile d
      ∧ readJsonFile st1 d = .ok (d, st1))
    ∧ readJsonFile FileState.corrupt d = .error JsErr.parseError
    ∧ readJsonFile FileState.ioFault d = .error JsErr.ioFault := by
  refine ⟨⟨writeJsonFile d, rfl, rfl, ?_⟩, rfl, rfl⟩
  simp [writeJsonFile, readJsonFile, stringifyNorm_wf d hwf]

theorem c5_document_store_read_witness :
    (∃ st1, readJsonFile FileState.absent (Json.arr []) = .ok (Json.arr [], st1)
      ∧ st1 = writeJsonFile (Json.arr [])
      ∧ readJsonFile st1 (Json.arr []) = .ok (Json.arr [], st1))
    ∧ readJsonFile FileState.corrupt (Json.arr []) = .error JsErr.parseError
    ∧ readJsonFile FileState.ioFault (Json.arr []) = .error JsErr.ioFault :=
  c5_document_store_read (Json.arr []) rfl

/-- C4 counterexample: with no remote credentials, the mirror operations
report reason `"supabase_not_configured"`, not `"not_configured"` as the
claim states. -/
theorem c4_not_configured_counterexample :
    (uploadBackupToSupabase Remote.off (Json.obj [])).reason ≠ some "not_configured"
    ∧ (downloadBackupFromSupabase Remote.off).reason ≠ some "not_configured"
    ∧ (uploadBackupToSupabase Remote.off (Json.obj [])).reason
        = some "supabase_not_configured"
    ∧ (downloadBackupFromSupabase Remote.off).reason
        = some "supabase_not_configured" := by
  refine ⟨?_, ?_, rfl, rfl⟩ <;>
    · intro h
      simp [uploadBackupToSupabase, downloadBackupFromSupabase] at h

/-- C4 (amended): when remote credentials are absent both mirror operations
return `ok:false` with reason `"supabase_not_configured"`, and this outcome
never raises or aborts the caller's request (backup save and load still
answer 200 whenever the local file operations themselves succeed). -/
theorem c4_not_configured_amended (j : Json) (fs : FS) (bs : List (String × Json)) :
    uploadBackupToSupabase Remote.off j
      = { ok := false, reason := some "supabase_not_configured" }
    ∧ downloadBackupFromSupabase Remote.off
      = { ok := false, data := none, reason := some "supabase_not_configured" }
    ∧ (fs.backup ≠ FileState.corrupt → fs.backup ≠ FileState.ioFault →
        (getBackup Remote.off fs).1.status = 200)
    ∧ (postBackup Remote.off fs (Json.obj bs)).1.status = 200 := by
  refine ⟨rfl, rfl, ?_, ?_⟩
  · intro h1 h2
    cases hb : fs.backup <;>
      simp_all [getBackup, downloadBackupFromSupabase, readJsonFile, jsonResp]
  · simp only [postBackup, getField, bind, Except.bind, pure, Except.pure]
    cases truthy ((lookupProp bs "vehicles").getD .undefined) <;>
      cases truthy ((lookupProp bs "permanentClients").getD .undefined) <;>
        cases truthy ((lookupProp bs "settings").getD .undefined) <;>
          cases truthy ((lookupProp bs "dailyStats").getD .undefined) <;>
            simp [jsonResp]

theorem c4_not_configured_amended_witness :
    uploadBackupToSupabase Remote.off (Json.obj [])
      = { ok := false, reason := some "supabase_not_configured" }
    ∧ downloadBackupFromSupabase Remote.off
      = { ok := false, data := none, reason := some "supabase_not_configured" }
    ∧ (getBackup Remote.off freshFS).1.status = 200
    ∧ (postBackup Remote.off freshFS (Json.obj [])).1.status = 200 := by
  obtain ⟨h1, h2, h3, h4⟩ := c4_not_configured_amended (Json.obj []) freshFS []
  exact ⟨h1, h2, h3 (by simp [freshFS]) (by simp [freshFS]), h4⟩

/-- C10 (implicit): when the stored settings document has no `credentials`
object, `POST /api/auth/login` answers 500 "Server error" for every body,
never 401 "Invalid credentials". -/
theorem c10_login_500_when_credentials_missing (fs : FS) (sf : List (String × Json))
    (body : Json) (hset : fs.settings = FileState.json (Json.obj sf))
    (hcred : lookupProp sf "credentials" = none) :
    postAuthLogin fs body = (jsonResp 500 (msgBody false "Server error"), fs) := by
  have hread : readJsonFile fs.settings defaultSettings = .ok (Json.obj sf, fs.settings) := by
    rw [hset]; rfl
  unfold postAuthLogin
  cases body with
  | undefined => rfl
  | null => rfl
  | bool b =>
    rw [hread]
    simp [getField, hcred, bind, Except.bind]
  | num n =>
    rw [hread]
    simp [getField, hcred, bind, Except.bind]
  | str s =>
    rw [hread]
    simp [getField, hcred, bind, Except.bind]
  | arr xs =>
    rw [hread]
    simp [getField, hcred, bind, Except.bind]
  | obj bf =>
    rw [hread]
    simp [getField, hcred, bind, Except.bind]

theorem c10_login_500_when_credentials_missing_witness :
    postAuthLogin { freshFS with settings := FileState.json (Json.obj [("siteName", Json.str "X")]) }
        (Json.obj [("username", Json.str "admin"), ("password", Json.str "admin123")])
      = (jsonResp 500 (msgBody false "Server error"),
         { freshFS with settings := FileState.json (Json.obj [("siteName", Json.str "X")]) }) :=
  c10_login_500_when_credentials_missing _ [("siteName", Json.str "X")] _ rfl rfl

/-- The four optional fields of a Backup Snapshot. -/
def snapshotFields : List String :=
  ["vehicles", "permanentClients", "settings", "dailyStats"]

/-- Evaluation of `POST /api/backup` on an object body: the response, the
backup file, and each live file as a function of the body's fields. -/
theorem postBackup_obj (remote : Remote) (fs : FS) (bs : List (String × Json)) :
    (postBackup remote fs (Json.obj bs)).1
      = jsonResp 200 (.obj [("success", .bool true),
          ("supabase", .bool (uploadBackupToSupabase remote (Json.obj bs)).ok)])
    ∧ (postBackup remote fs (Json.obj bs)).2.backup = writeJsonFile (Json.obj bs)
    ∧ (postBackup remote fs (Json.obj bs)).2.vehicles
        = (if truthy (getFieldD (Json.obj bs) "vehicles")
           then writeJsonFile (getFieldD (Json.obj bs) "vehicles") else fs.vehicles)
    ∧ (postBackup remote fs (Json.obj bs)).2.permanentClients
        = (if truthy (getFieldD (Json.obj bs) "permanentClients")
           then writeJsonFile (getFieldD (Json.obj bs) "permanentClients") else fs.permanentClients)
    ∧ (postBackup remote fs (Json.obj bs)).2.settings
        = (if truthy (getFieldD (Json.obj bs) "settings")
           then writeJsonFile (getFieldD (Json.obj bs) "settings") else fs.settings)
    ∧ (postBackup remote fs (Json.obj bs)).2.dailyStats
        = (if truthy (getFieldD (Json.obj bs) "dailyStats")
           then writeJsonFile (getFieldD (Json.obj bs) "dailyStats") else fs.dailyStats) := by
  simp only [postBackup, getField, getFieldD, bind, Except.bind, pure, Except.pure]
  by_cases hv : truthy ((lookupProp bs "vehicles").getD .undefined) = true <;>
    by_cases hp : truthy ((lookupProp bs "permanentClients").getD .undefined) = true <;>
      by_cases hs : truthy ((lookupProp bs "settings").getD .undefined) = true <;>
        by_cases hd : truthy ((lookupProp bs "dailyStats").getD .undefined) = true <;>
          simp_all

/-- C1: backup save/load round-trip with no remote mirror configured: for a
snapshot with all four fields populated, POST `/api/backup` followed by
GET `/api/backup` returns a snapshot deep-equal to the input. -/
theorem c1_backup_roundtrip (fs : FS) (bs : List (String × Json))
    (hwf : wfJson (Json.obj bs) = true)
    (hv : ∃ v, lookupProp bs "vehicles" = some v ∧ truthy v = true)
    (hp : ∃ v, lookupProp bs "permanentClients" = some v ∧ truthy v = true)
    (hs : ∃ v, lookupProp bs "settings" = some v ∧ truthy v = true)
    (hd : ∃ v, lookupProp bs "dailyStats" = some v ∧ truthy v = true) :
    (postBackup Remote.off fs (Json.obj bs)).1.status = 200
    ∧ (getBackup Remote.off (postBackup Remote.off fs (Json.obj bs)).2).1
        = { status := 200, body := Json.obj bs } := by
  obtain ⟨hresp, hbackup, _⟩ := postBackup_obj Remote.off fs bs
  have hnorm : stringifyNorm (Json.obj bs) = Json.obj bs := stringifyNorm_wf _ hwf
  constructor
  · rw [hresp]
    rfl
  · unfold getBackup
    rw [hbackup]
    simp [downloadBackupFromSupabase, writeJsonFile, hnorm, readJsonFile, jsOrElse,
      truthy, jsonResp]

theorem c1_backup_roundtrip_witness :
    (postBackup Remote.off freshFS
        (Json.obj [("vehicles", Json.arr []), ("permanentClients", Json.arr []),
          ("settings", Json.obj [("siteName", Json.str "X")]),
          ("dailyStats", Json.arr [])])).1.status = 200
    ∧ (getBackup Remote.off (postBackup Remote.off freshFS
        (Json.obj [("vehicles", Json.arr []), ("permanentClients", Json.arr []),
          ("settings", Json.obj [("siteName", Json.str "X")]),
          ("dailyStats", Json.arr [])])).2).1
        = { status := 200,
            body := Json.obj [("vehicles", Json.arr []), ("permanentClients", Json.arr []),
              ("settings", Json.obj [("siteName", Json.str "X")]),
              ("dailyStats", Json.arr [])] } :=
  c1_backup_roundtrip freshFS _ rfl
    ⟨Json.arr [], rfl, rfl⟩ ⟨Json.arr [], rfl, rfl⟩
    ⟨Json.obj [("siteName", Json.str "X")], rfl, rfl⟩ ⟨Json.arr [], rfl, rfl⟩

/-- C2: load precedence and fallback: GET `/api/backup` returns the remote
snapshot whenever the pull succeeds (whatever the local backup document
holds), and on any pull failure (`not_configured`, `not_found`, or other)
falls back to the local backup document, or an empty object if none
exists, never surfacing the pull failure as an error response. -/
theorem c2_load_precedence_and_fallback (remote : Remote) (fs : FS) :
    (∀ j pushOk, remote = Remote.on (PullOutcome.got j) pushOk →
        wfJson j = true → truthy j = true →
        getBackup remote fs = ({ status := 200, body := j }, fs))
    ∧ ((downloadBackupFromSupabase remote).ok = false →
        (∀ b, fs.backup = FileState.json b → wfJson b = true → truthy b = true →
          getBackup remote fs = ({ status := 200, body := b }, fs))
        ∧ (fs.backup = FileState.absent →
          getBackup remote fs
            = ({ status := 200, body := Json.obj [] },
               { fs with backup := FileState.json (Json.obj []) }))) := by
  constructor
  · rintro j pushOk rfl hwf htr
    simp [getBackup, downloadBackupFromSupabase, jsOrElse, htr, jsonResp,
      stringifyNorm_wf j hwf]
  · intro hdown
    constructor
    · intro b hb hwf htr
      have hfs : { fs with backup := FileState.json b } = fs := by
        rw [← hb]
      unfold getBackup
      rw [if_neg (by simp [hdown]), hb]
      simp [readJsonFile, jsOrElse, htr, jsonResp, stringifyNorm_wf b hwf, hfs]
    · intro hb
      unfold getBackup
      rw [if_neg (by simp [hdown]), hb]
      simp [readJsonFile, writeJsonFile, jsOrElse, truthy, jsonResp, stringifyNorm, normObj]

/-- C3: backup save frame and status: for every snapshot (each present
snapshot field holding a collection value, hence truthy), POST `/api/backup`
writes the snapshot verbatim to the backup document, overwrites the live
document of exactly the present fields, leaves the others unchanged, and
answers `{success:true, supabase:<flag>}` whatever the remote push outcome. -/
theorem c3_backup_save_frame (remote : Remote) (fs : FS) (bs : List (String × Json))
    (hwf : wfJson (Json.obj bs) = true)
    (hcoll : ∀ f, f ∈ snapshotFields → ∀ v, lookupProp bs f = some v → truthy v = true) :
    (postBackup remote fs (Json.obj bs)).1
      = { status := 200,
          body := Json.obj [("success", Json.bool true),
            ("supabase", Json.bool (uploadBackupToSupabase remote (Json.obj bs)).ok)] }
    ∧ (postBackup remote fs (Json.obj bs)).2.backup = FileState.json (Json.obj bs)
    ∧ (∀ v, lookupProp bs "vehicles" = some v →
        (postBackup remote fs (Json.obj bs)).2.vehicles = FileState.json v)
    ∧ (lookupProp bs "vehicles" = none →
        (postBackup remote fs (Json.obj bs)).2.vehicles = fs.vehicles)
    ∧ (∀ v, lookupProp bs "permanentClients" = some v →
        (postBackup remote fs (Json.obj bs)).2.permanentClients = FileState.json v)
    ∧ (lookupProp bs "permanentClients" = none →
        (postBackup remote fs (Json.obj bs)).2.permanentClients = fs.permanentClients)
    ∧ (∀ v, lookupProp bs "settings" = some v →
        (postBackup remote fs (Json.obj bs)).2.settings = FileState.json v)
    ∧ (lookupProp bs "settings" = none →
        (postBackup remote fs (Json.obj bs)).2.settings = fs.settings)
    ∧ (∀ v, lookupProp bs "dailyStats" = some v →
        (postBackup remote fs (Json.obj bs)).2.dailyStats = FileState.json v)
    ∧ (lookupProp bs "dailyStats" = none →
        (postBackup remote fs (Json.obj bs)).2.dailyStats = fs.dailyStats) := by
  obtain ⟨hresp, hbackup, hveh, hper, hset, hday⟩ := postBackup_obj remote fs bs
  have hwfField : ∀ f v, lookupProp bs f = some v → wfJson v = true := fun f v hl =>
    (wfJson_obj_parts hwf).2 (f, v) (lookupProp_mem hl)
  have present : ∀ (f : String), f ∈ snapshotFields →
      ∀ (get : FileState) (live : FileState) v,
      (get = if truthy (getFieldD (Json.obj bs) f) = true
             then writeJsonFile (getFieldD (Json.obj bs) f) else live) →
      lookupProp bs f = some v → get = FileState.json v := by
    intro f hf get live v hget hl
    have htr : truthy v = true := hcoll f hf v hl
    have hfield : getFieldD (Json.obj bs) f = v := by simp [getFieldD, hl]
    rw [hget, hfield, if_pos htr, writeJsonFile, stringifyNorm_wf v (hwfField f v hl)]
  have absent : ∀ (f : String) (get : FileState) (live : FileState),
      (get = if truthy (getFieldD (Json.obj bs) f) = true
             then writeJsonFile (getFieldD (Json.obj bs) f) else live) →
      lookupProp bs f = none → get = live := by
    intro f get live hget hl
    have hfield : getFieldD (Json.obj bs) f = .undefined := by simp [getFieldD, hl]
    rw [hget, hfield]
    simp [truthy]
  refine ⟨?_, ?_, ?_, ?_, ?_, ?_, ?_, ?_, ?_, ?_⟩
  · rw [hresp]
    have : stringifyNorm (Json.obj [("success", Json.bool true),
        ("supabase", Json.bool (uploadBackupToSupabase remote (Json.obj bs)).ok)])
        = Json.obj [("success", Json.bool true),
            ("supabase", Json.bool (uploadBackupToSupabase remote (Json.obj bs)).ok)] := by
      simp [stringifyNorm, normObj]
    rw [jsonResp, this]
  · rw [hbackup, writeJsonFile, stringifyNorm_wf _ hwf]
  · exact fun v => present "vehicles" (by simp [snapshotFields]) _ fs.vehicles v hveh
  · exact absent "vehicles" _ fs.vehicles hveh
  · exact fun v => present "permanentClients" (by simp [snapshotFields]) _ fs.permanentClients v hper
  · exact absent "permanentClients" _ fs.permanentClients hper
  · exact fun v => present "settings" (by simp [snapshotFields]) _ fs.settings v hset
  · exact absent "settings" _ fs.settings hset
  · exact fun v => present "dailyStats" (by simp [snapshotFields]) _ fs.dailyStats v hday
  · exact absent "dailyStats" _ fs.dailyStats hday

theorem c3_backup_save_frame_witness :
    (postBackup (Remote.on PullOutcome.notFound false) freshFS
        (Json.obj [("dailyStats", Json.arr [])])).1
      = { status := 200,
          body := Json.obj [("success", Json.bool true), ("supabase", Json.bool false)] }
    ∧ (postBackup (Remote.on PullOutcome.notFound false) freshFS
        (Json.obj [("dailyStats", Json.arr [])])).2.backup
      = FileState.json (Json.obj [("dailyStats", Json.arr [])])
    ∧ (postBackup (Remote.on PullOutcome.notFound false) freshFS
        (Json.obj [("dailyStats", Json.arr [])])).2.dailyStats
      = FileState.json (Json.arr [])
    ∧ (postBackup (Remote.on PullOutcome.notFound false) freshFS
        (Json.obj [("dailyStats", Json.arr [])])).2.vehicles
      = freshFS.vehicles := by
  obtain ⟨h1, h2, _, hvehN, _, _, _, _, hdayS, _⟩ :=
    c3_backup_save_frame (Remote.on PullOutcome.notFound false) freshFS
      [("dailyStats", Json.arr [])] rfl
      (by
        intro f hf v hl
        by_cases hfd : ("dailyStats" : String) = f
        · subst hfd
          simp only [lookupProp, beq_self_eq_true, if_pos, Option.some.injEq] at hl
          rw [← hl]
          rfl
        · simp [lookupProp, hfd] at hl)
  exact ⟨h1, h2, hdayS (Json.arr []) rfl, hvehN rfl⟩

theorem c2_load_precedence_and_fallback_witness :
    getBackup (Remote.on (PullOutcome.got (Json.obj [("a", Json.num 1)])) true)
        { freshFS with backup := FileState.json (Json.obj [("b", Json.num 2)]) }
      = ({ status := 200, body := Json.obj [("a", Json.num 1)] },
         { freshFS with backup := FileState.json (Json.obj [("b", Json.num 2)]) })
    ∧ getBackup Remote.off { freshFS with backup := FileState.json (Json.obj [("b", Json.num 2)]) }
      = ({ status := 200, body := Json.obj [("b", Json.num 2)] },
         { freshFS with backup := FileState.json (Json.obj [("b", Json.num 2)]) })
    ∧ getBackup Remote.off freshFS
      = ({ status := 200, body := Json.obj [] },
         { freshFS with backup := FileState.json (Json.obj []) }) := by
  refine ⟨?_, ?_, ?_⟩
  · exact (c2_load_precedence_and_fallback _ _).1 _ true rfl rfl rfl
  · exact ((c2_load_precedence_and_fallback Remote.off _).2 rfl).1 _ rfl rfl rfl
  · exact ((c2_load_precedence_and_fallback Remote.off freshFS).2 rfl).2 rfl

/-!  Lemmas about the merged records built by the two PUT handlers.  -/

theorem getD_set_ne_json (l : List Json) {i j : Nat} (a d : Json) (h : j ≠ i) :
    (l.set i a).getD j d = l.getD j d := by
  rcases Nat.lt_or_ge j l.length with hj | hj
  · rw [List.getD_eq_getElem _ _ (by simpa using hj), List.getD_eq_getElem _ _ hj]
    exact List.getElem_set_of_ne (fun hh => h hh.symm) a (by simpa using hj)
  · rw [List.getD_eq_default _ _ (by simpa using hj), List.getD_eq_default _ _ hj]

theorem getD_set_self_json (l : List Json) {i : Nat} (a d : Json) (h : i < l.length) :
    (l.set i a).getD i d = a := by
  rw [List.getD_eq_getElem _ _ (by simpa using h)]
  exact List.getElem_set_self _

theorem exitMerged_lookup (f : List (String × Json)) (hnd : nodupKeys f = true)
    (now : String) (fee : Json) :
    getFieldD (exitMergedRecord (.obj f) now fee) "exitTime" = .str now
    ∧ getFieldD (exitMergedRecord (.obj f) now fee) "fee" = fee
    ∧ ∀ k, k ≠ "exitTime" → k ≠ "fee" →
        getFieldD (exitMergedRecord (.obj f) now fee) k = getFieldD (.obj f) k := by
  have hbase : ∀ k, getFieldD (exitMergedRecord (.obj f) now fee) k
      = (match lastVal [("exitTime", Json.str now), ("fee", fee)] k with
         | some w => some w
         | none => lookupProp f k).getD .undefined := by
    intro k
    simp only [exitMergedRecord, objLit, ownProps, getFieldD, lookupProp_objLitProps,
      lastVal_append, lastVal_nodup k hnd]
  refine ⟨?_, ?_, ?_⟩
  · rw [hbase]
    simp [lastVal]
  · rw [hbase]
    simp [lastVal]
  · intro k h1 h2
    rw [hbase]
    have e1 : (("exitTime" : String) == k) = false := by
      simp [beq_iff_eq]; exact fun h => h1 h.symm
    have e2 : (("fee" : String) == k) = false := by
      simp [beq_iff_eq]; exact fun h => h2 h.symm
    simp [lastVal, e1, e2, getFieldD]

theorem wf_exitMerged {f : List (String × Json)} (hf : wfObj f = true) {fee : Json}
    (hfee : wfJson fee = true) (now : String) :
    wfJson (exitMergedRecord (.obj f) now fee) = true := by
  apply wfJson_objLit
  intro p hp
  rcases List.mem_append.mp hp with hp | hp
  · exact wfObj_iff.mp hf p hp
  · rcases List.mem_cons.mp hp with hp | hp
    · rw [hp]
      simp [wfJson]
    · simp only [List.mem_singleton] at hp
      rw [hp]
      exact hfee

theorem clientMerged_lookup (f bf : List (String × Json)) (hf : nodupKeys f = true)
    (hb : nodupKeys bf = true) :
    (∀ k v, lookupProp bf k = some v →
       getFieldD (clientMergedRecord (.obj f) (.obj bf)) k = v)
    ∧ ∀ k, lookupProp bf k = none →
       getFieldD (clientMergedRecord (.obj f) (.obj bf)) k = getFieldD (.obj f) k := by
  have hbase : ∀ k, getFieldD (clientMergedRecord (.obj f) (.obj bf)) k
      = (match lookupProp bf k with
         | some w => some w
         | none => lookupProp f k).getD .undefined := by
    intro k
    simp only [clientMergedRecord, objLit, ownProps, getFieldD, lookupProp_objLitProps,
      lastVal_append, lastVal_nodup k hf, lastVal_nodup k hb]
  constructor
  · intro k v hl
    rw [hbase, hl]
    rfl
  · intro k hl
    rw [hbase, hl]
    rfl

theorem wf_clientMerged {f bf : List (String × Json)} (hf : wfObj f = true)
    (hb : wfObj bf = true) :
    wfJson (clientMergedRecord (.obj f) (.obj bf)) = true := by
  apply wfJson_objLit
  intro p hp
  rcases List.mem_append.mp hp with hp | hp
  · exact wfObj_iff.mp hf p hp
  · exact wfObj_iff.mp hb p hp

/-- C6: vehicle exit: an unknown identifier gives 404 and leaves the
collection unchanged; a known identifier updates exactly the first matching
record, which gains the exit timestamp and the caller-supplied fee and
keeps its other fields, while every other record is unchanged. -/
theorem c6_vehicle_exit (fs : FS) (vs : List Json) (pid : String)
    (bf : List (String × Json)) (fee : Json) (now : String)
    (hfile : fs.vehicles = FileState.json (Json.arr vs))
    (hwfv : wfJson (Json.arr vs) = true)
    (hrecs : ∀ v ∈ vs, ∃ f, v = Json.obj f)
    (hfee : lookupProp bf "fee" = some fee)
    (hwff : wfJson fee = true) :
    ((∀ v ∈ vs, strictEq (getFieldD v "id") (Json.str pid) = false) →
      putVehicleExit fs pid (Json.obj bf) now
        = ({ status := 404, body := errBody "Vehicle not found" }, fs))
    ∧ ((∃ v ∈ vs, strictEq (getFieldD v "id") (Json.str pid) = true) →
      ∃ i, i < vs.length
        ∧ strictEq (getFieldD (vs.getD i Json.undefined) "id") (Json.str pid) = true
        ∧ putVehicleExit fs pid (Json.obj bf) now
            = ({ status := 200, body := exitMergedRecord (vs.getD i Json.undefined) now fee },
               { fs with vehicles := FileState.json (Json.arr (vs.set i
                   (exitMergedRecord (vs.getD i Json.undefined) now fee))) })
        ∧ getFieldD (exitMergedRecord (vs.getD i Json.undefined) now fee) "exitTime" = Json.str now
        ∧ getFieldD (exitMergedRecord (vs.getD i Json.undefined) now fee) "fee" = fee
        ∧ (∀ k, k ≠ "exitTime" → k ≠ "fee" →
            getFieldD (exitMergedRecord (vs.getD i Json.undefined) now fee) k
              = getFieldD (vs.getD i Json.undefined) k)
        ∧ ∀ j, j ≠ i →
            (vs.set i (exitMergedRecord (vs.getD i Json.undefined) now fee)).getD j Json.undefined
              = vs.getD j Json.undefined) := by
  have hcb : ∀ v ∈ vs, idMatches pid v
      = Except.ok (strictEq (getFieldD v "id") (Json.str pid)) := by
    intro v hv
    obtain ⟨f, rfl⟩ := hrecs v hv
    rfl
  obtain ⟨fv, fp, fst, fd, fb⟩ := fs
  replace hfile : fv = FileState.json (Json.arr vs) := hfile
  subst hfile
  constructor
  · intro h404
    have hfind : findIdxPure (fun v => strictEq (getFieldD v "id") (Json.str pid)) vs
        = none := findIdxPure_eq_none.mpr h404
    unfold putVehicleExit
    simp only [readJsonFile, bind, Except.bind, asArray, findIndexJs_pure hcb, hfind,
      pure, Except.pure]
    simp [jsonResp, errBody, stringifyNorm, normObj]
  · rintro ⟨v0, hv0, hq0⟩
    obtain ⟨i, hfind⟩ : ∃ i,
        findIdxPure (fun v => strictEq (getFieldD v "id") (Json.str pid)) vs = some i := by
      cases hfi : findIdxPure (fun v => strictEq (getFieldD v "id") (Json.str pid)) vs with
      | none =>
        rw [findIdxPure_eq_none] at hfi
        rw [hfi v0 hv0] at hq0
        exact absurd hq0 (by simp)
      | some i => exact ⟨i, rfl⟩
    obtain ⟨hi, hgi⟩ := findIdxPure_some hfind
    have hgetD : vs.getD i Json.undefined = vs.get ⟨i, hi⟩ := List.getD_eq_get _ _ hi
    have hmem : vs.getD i Json.undefined ∈ vs := by
      rw [hgetD]
      exact List.get_mem _ _ _
    obtain ⟨f, hf⟩ := hrecs _ hmem
    have hwfi : wfJson (vs.getD i Json.undefined) = true :=
      wfJson_arr_iff.mp hwfv _ hmem
    have hnd : nodupKeys f = true := by
      rw [hf] at hwfi
      exact (wfJson_obj_parts hwfi).1
    have hwfo : wfObj f = true := by
      rw [hf] at hwfi
      rw [wfJson, Bool.and_eq_true] at hwfi
      exact hwfi.2
    have hwfm : wfJson (exitMergedRecord (vs.getD i Json.undefined) now fee) = true := by
      rw [hf]
      exact wf_exitMerged hwfo hwff now
    have hwfl : wfJson (Json.arr (vs.set i (exitMergedRecord (vs.getD i Json.undefined) now fee)))
        = true := by
      rw [wfJson_arr_iff]
      intro x hx
      rcases List.mem_or_eq_of_mem_set hx with hx | rfl
      · exact wfJson_arr_iff.mp hwfv x hx
      · exact hwfm
    obtain ⟨hmet, hmfee, hmkeep⟩ := exitMerged_lookup f hnd now fee
    refine ⟨i, hi, by rw [hgetD]; exact hgi, ?_, by rw [hf]; exact hmet,
      by rw [hf]; exact hmfee, ?_, ?_⟩
    · unfold putVehicleExit
      simp only [readJsonFile, bind, Except.bind, asArray, findIndexJs_pure hcb, hfind,
        getField, hfee, Option.getD_some, pure, Except.pure]
      rw [writeJsonFile, stringifyNorm_wf _ hwfl, jsonResp, stringifyNorm_wf _ hwfm]
    · intro k h1 h2
      rw [hf]
      exact hmkeep k h1 h2
    · intro j hj
      exact getD_set_ne_json vs _ _ hj

theorem c6_vehicle_exit_witness :
    putVehicleExit
        { freshFS with vehicles := FileState.json (Json.arr
            [Json.obj [("id", Json.str "7"), ("name", Json.str "car")]]) }
        "9" (Json.obj [("fee", Json.num 50)]) "2024-01-01T00:00:00.000Z"
      = ({ status := 404, body := errBody "Vehicle not found" },
         { freshFS with vehicles := FileState.json (Json.arr
             [Json.obj [("id", Json.str "7"), ("name", Json.str "car")]]) })
    ∧ (putVehicleExit
        { freshFS with vehicles := FileState.json (Json.arr
            [Json.obj [("id", Json.str "7"), ("name", Json.str "car")]]) }
        "7" (Json.obj [("fee", Json.num 50)]) "2024-01-01T00:00:00.000Z").1.status = 200 := by
  have hrecs : ∀ v ∈ [Json.obj [("id", Json.str "7"), ("name", Json.str "car")]],
      ∃ f, v = Json.obj f := by
    intro v hv
    rw [List.mem_singleton] at hv
    exact ⟨_, hv⟩
  constructor
  · exact (c6_vehicle_exit _ _ "9" [("fee", Json.num 50)] (Json.num 50)
      "2024-01-01T00:00:00.000Z" rfl (by decide) hrecs rfl (by decide)).1
      (by
        intro v hv
        rw [List.mem_singleton] at hv
        subst hv
        decide)
  · obtain ⟨i, hi, hq, heq, _⟩ := (c6_vehicle_exit
      { freshFS with vehicles := FileState.json (Json.arr
          [Json.obj [("id", Json.str "7"), ("name", Json.str "car")]]) }
      [Json.obj [("id", Json.str "7"), ("name", Json.str "car")]] "7" [("fee", Json.num 50)]
      (Json.num 50) "2024-01-01T00:00:00.000Z" rfl (by decide) hrecs rfl (by decide)).2
      ⟨Json.obj [("id", Json.str "7"), ("name", Json.str "car")],
        List.mem_singleton.mpr rfl, by decide⟩
    rw [heq]

/-- C9: permanent client update is a shallow merge onto the record located
by identifier: payload fields overwrite, fields absent from the payload keep
their existing values, and an unknown identifier yields 404. -/
theorem c9_permanent_client_update (fs : FS) (cs : List Json) (pid : String)
    (bf : List (String × Json))
    (hfile : fs.permanentClients = FileState.json (Json.arr cs))
    (hwfc : wfJson (Json.arr cs) = true)
    (hrecs : ∀ c ∈ cs, ∃ f, c = Json.obj f)
    (hwfb : wfJson (Json.obj bf) = true) :
    ((∀ c ∈ cs, strictEq (getFieldD c "id") (Json.str pid) = false) →
      putPermanentClient fs pid (Json.obj bf)
        = ({ status := 404, body := errBody "Client not found" }, fs))
    ∧ ((∃ c ∈ cs, strictEq (getFieldD c "id") (Json.str pid) = true) →
      ∃ i, i < cs.length
        ∧ strictEq (getFieldD (cs.getD i Json.undefined) "id") (Json.str pid) = true
        ∧ putPermanentClient fs pid (Json.obj bf)
            = ({ status := 200,
                 body := clientMergedRecord (cs.getD i Json.undefined) (Json.obj bf) },
               { fs with permanentClients := FileState.json (Json.arr (cs.set i
                   (clientMergedRecord (cs.getD i Json.undefined) (Json.obj bf)))) })
        ∧ (∀ k v, lookupProp bf k = some v →
            getFieldD (clientMergedRecord (cs.getD i Json.undefined) (Json.obj bf)) k = v)
        ∧ (∀ k, lookupProp bf k = none →
            getFieldD (clientMergedRecord (cs.getD i Json.undefined) (Json.obj bf)) k
              = getFieldD (cs.getD i Json.undefined) k)
        ∧ ∀ j, j ≠ i →
            (cs.set i (clientMergedRecord (cs.getD i Json.undefined) (Json.obj bf))).getD
                j Json.undefined
              = cs.getD j Json.undefined) := by
  have hcb : ∀ c ∈ cs, idMatches pid c
      = Except.ok (strictEq (getFieldD c "id") (Json.str pid)) := by
    intro c hc
    obtain ⟨f, rfl⟩ := hrecs c hc
    rfl
  obtain ⟨fv, fp, fst, fd, fb⟩ := fs
  replace hfile : fp = FileState.json (Json.arr cs) := hfile
  subst hfile
  constructor
  · intro h404
    have hfind : findIdxPure (fun c => strictEq (getFieldD c "id") (Json.str pid)) cs
        = none := findIdxPure_eq_none.mpr h404
    unfold putPermanentClient
    simp only [readJsonFile, bind, Except.bind, asArray, findIndexJs_pure hcb, hfind,
      pure, Except.pure]
    simp [jsonResp, errBody, stringifyNorm, normObj]
  · rintro ⟨c0, hc0, hq0⟩
    obtain ⟨i, hfind⟩ : ∃ i,
        findIdxPure (fun c => strictEq (getFieldD c "id") (Json.str pid)) cs = some i := by
      cases hfi : findIdxPure (fun c => strictEq (getFieldD c "id") (Json.str pid)) cs with
      | none =>
        rw [findIdxPure_eq_none] at hfi
        rw [hfi c0 hc0] at hq0
        exact absurd hq0 (by simp)
      | some i => exact ⟨i, rfl⟩
    obtain ⟨hi, hgi⟩ := findIdxPure_some hfind
    have hgetD : cs.getD i Json.undefined = cs.get ⟨i, hi⟩ := List.getD_eq_get _ _ hi
    have hmem : cs.getD i Json.undefined ∈ cs := by
      rw [hgetD]
      exact List.get_mem _ _ _
    obtain ⟨f, hf⟩ := hrecs _ hmem
    have hwfi : wfJson (cs.getD i Json.undefined) = true :=
      wfJson_arr_iff.mp hwfc _ hmem
    have hndf : nodupKeys f = true := by
      rw [hf] at hwfi
      exact (wfJson_obj_parts hwfi).1
    have hwfof : wfObj f = true := by
      rw [hf] at hwfi
      rw [wfJson, Bool.and_eq_true] at hwfi
      exact hwfi.2
    have hndb : nodupKeys bf = true := (wfJson_obj_parts hwfb).1
    have hwfob : wfObj bf = true := by
      rw [wfJson, Bool.and_eq_true] at hwfb
      exact hwfb.2
    have hwfm : wfJson (clientMergedRecord (cs.getD i Json.undefined) (Json.obj bf)) = true := by
      rw [hf]
      exact wf_clientMerged hwfof hwfob
    have hwfl : wfJson (Json.arr (cs.set i
        (clientMergedRecord (cs.getD i Json.undefined) (Json.obj bf)))) = true := by
      rw [wfJson_arr_iff]
      intro x hx
      rcases List.mem_or_eq_of_mem_set hx with hx | rfl
      · exact wfJson_arr_iff.mp hwfc x hx
      · exact hwfm
    obtain ⟨hover, hkeep⟩ := clientMerged_lookup f bf hndf hndb
    refine ⟨i, hi, by rw [hgetD]; exact hgi, ?_, ?_, ?_, ?_⟩
    · unfold putPermanentClient
      simp only [readJsonFile, bind, Except.bind, asArray, findIndexJs_pure hcb, hfind,
        pure, Except.pure]
      rw [writeJsonFile, stringifyNorm_wf _ hwfl, jsonResp, stringifyNorm_wf _ hwfm]
    · intro k v hl
      rw [hf]
      exact hover k v hl
    · intro k hl
      rw [hf]
      exact hkeep k hl
    · intro j hj
      exact getD_set_ne_json cs _ _ hj

theorem c9_permanent_client_update_witness :
    putPermanentClient
        { freshFS with permanentClients := FileState.json (Json.arr
            [Json.obj [("id", Json.str "5"), ("name", Json.str "Bob"),
              ("paymentStatus", Json.str "unpaid")]]) }
        "9" (Json.obj [("paymentStatus", Json.str "paid")])
      = ({ status := 404, body := errBody "Client not found" },
         { freshFS with permanentClients := FileState.json (Json.arr
             [Json.obj [("id", Json.str "5"), ("name", Json.str "Bob"),
               ("paymentStatus", Json.str "unpaid")]]) })
    ∧ ∃ merged, (putPermanentClient
        { freshFS with permanentClients := FileState.json (Json.arr
            [Json.obj [("id", Json.str "5"), ("name", Json.str "Bob"),
              ("paymentStatus", Json.str "unpaid")]]) }
        "5" (Json.obj [("paymentStatus", Json.str "paid")])).1
        = { status := 200, body := merged }
      ∧ getFieldD merged "paymentStatus" = Json.str "paid"
      ∧ getFieldD merged "name" = Json.str "Bob" := by
  have hrecs : ∀ c ∈ [Json.obj [("id", Json.str "5"), ("name", Json.str "Bob"),
      ("paymentStatus", Json.str "unpaid")]], ∃ f, c = Json.obj f := by
    intro c hc
    rw [List.mem_singleton] at hc
    exact ⟨_, hc⟩
  constructor
  · exact (c9_permanent_client_update _ _ "9" [("paymentStatus", Json.str "paid")] rfl
      (by decide) hrecs (by decide)).1
      (by
        intro c hc
        rw [List.mem_singleton] at hc
        subst hc
        decide)
  · obtain ⟨i, hi, hq, heq, hover, hkeep, _⟩ := (c9_permanent_client_update
      { freshFS with permanentClients := FileState.json (Json.arr
          [Json.obj [("id", Json.str "5"), ("name", Json.str "Bob"),
            ("paymentStatus", Json.str "unpaid")]]) }
      [Json.obj [("id", Json.str "5"), ("name", Json.str "Bob"),
        ("paymentStatus", Json.str "unpaid")]]
      "5" [("paymentStatus", Json.str "paid")] rfl (by decide) hrecs (by decide)).2
      ⟨Json.obj [("id", Json.str "5"), ("name", Json.str "Bob"),
        ("paymentStatus", Json.str "unpaid")], List.mem_singleton.mpr rfl, by decide⟩
    refine ⟨_, by rw [heq], hover "paymentStatus" (Json.str "paid") rfl, ?_⟩
    rw [hkeep "name" rfl]
    cases hii : i with
    | zero => rfl
    | succ n =>
      rw [hii] at hi
      exact absurd hi (by simp)

/-!  Daily-stats dates.  -/

/-- The `date` property of a daily-stats record. -/
def dateOf (s : Json) : Json := getFieldD s "date"

/-- At most one record per date: no two records of the list have
strictly-equal `date` fields. -/
def distinctDates : List Json → Bool
  | [] => true
  | s :: rest => rest.all (fun t => !(strictEq (dateOf s) (dateOf t))) && distinctDates rest

theorem distinctDates_append {xs : List Json} {b : Json}
    (hd : distinctDates xs = true)
    (hnew : ∀ x ∈ xs, strictEq (dateOf x) (dateOf b) = false) :
    distinctDates (xs ++ [b]) = true := by
  induction xs with
  | nil => simp [distinctDates]
  | cons x rest ih =>
    simp only [List.cons_append, distinctDates, Bool.and_eq_true, List.all_eq_true] at hd ⊢
    refine ⟨?_, ih hd.2 (fun y hy => hnew y (List.mem_cons_of_mem _ hy))⟩
    intro t ht
    rcases List.mem_append.mp ht with ht | ht
    · exact hd.1 t ht
    · rw [List.mem_singleton] at ht
      subst ht
      simp [hnew x (List.mem_cons_self _ _)]

theorem distinctDates_set {xs : List Json} {b : Json} {i : Nat}
    (hd : distinctDates xs = true)
    (hfind : findIdxPure (fun x => strictEq (dateOf x) (dateOf b)) xs = some i) :
    distinctDates (xs.set i b) = true := by
  induction xs generalizing i with
  | nil => simp [findIdxPure] at hfind
  | cons x rest ih =>
    simp only [distinctDates, Bool.and_eq_true, List.all_eq_true] at hd
    by_cases hq : strictEq (dateOf x) (dateOf b) = true
    · simp only [findIdxPure, hq, if_true] at hfind
      cases hfind
      simp only [List.set, distinctDates, Bool.and_eq_true, List.all_eq_true]
      refine ⟨?_, hd.2⟩
      intro t ht
      have hxt : strictEq (dateOf x) (dateOf t) = false := by
        have := hd.1 t ht
        rwa [Bool.not_eq_true'] at this
      rw [Bool.not_eq_true']
      cases hbt : strictEq (dateOf b) (dateOf t) with
      | false => rfl
      | true =>
        have hcontra : strictEq (dateOf x) (dateOf t) = true := strictEq_trans hq hbt
        rw [hcontra] at hxt
        exact absurd hxt (by simp)
    · rw [Bool.not_eq_true] at hq
      simp only [findIdxPure, hq, Bool.false_eq_true, if_false] at hfind
      cases hfr : findIdxPure (fun x => strictEq (dateOf x) (dateOf b)) rest with
      | none => rw [hfr] at hfind; simp at hfind
      | some i0 =>
        rw [hfr] at hfind
        simp only [Option.map_some'] at hfind
        cases hfind
        simp only [List.set, distinctDates, Bool.and_eq_true, List.all_eq_true]
        refine ⟨?_, ih hd.2 hfr⟩
        intro t ht
        rcases List.mem_or_eq_of_mem_set ht with ht | rfl
        · exact hd.1 t ht
        · simp [hq]

theorem countP_dates_one {l : List Json} {b : Json}
    (hd : distinctDates l = true) {e : Json} (he : e ∈ l)
    (hq : strictEq (dateOf e) (dateOf b) = true) :
    l.countP (fun r => strictEq (dateOf r) (dateOf b)) = 1 := by
  induction l with
  | nil => simp at he
  | cons x rest ih =>
    simp only [distinctDates, Bool.and_eq_true, List.all_eq_true] at hd
    by_cases hx : strictEq (dateOf x) (dateOf b) = true
    · rw [List.countP_cons_of_pos _ _ (by simpa using hx)]
      have hzero : rest.countP (fun r => strictEq (dateOf r) (dateOf b)) = 0 := by
        rw [List.countP_eq_zero]
        intro t ht
        have hxt : strictEq (dateOf x) (dateOf t) = false := by
          have := hd.1 t ht
          rwa [Bool.not_eq_true'] at this
        intro hbt
        have hcontra : strictEq (dateOf x) (dateOf t) = true :=
          strictEq_trans hx (by rw [strictEq_symm]; exact hbt)
        rw [hcontra] at hxt
        exact absurd hxt (by simp)
      rw [hzero]
    · rw [Bool.not_eq_true] at hx
      rw [List.countP_cons_of_neg _ _ (by simp [hx])]
      rcases List.mem_cons.mp he with rfl | he'
      · rw [hq] at hx
        exact absurd hx (by simp)
      · exact ih hd.2 he'

/-- Evaluation of `POST /api/daily-stats` on object records: replace the
first record whose `date` strictly equals the body's, else append. -/
theorem postDailyStats_run (fs : FS) (stats : List Json) (fbody : List (String × Json))
    (hfile : fs.dailyStats = FileState.json (Json.arr stats))
    (hrecs : ∀ s ∈ stats, ∃ f, s = Json.obj f)
    (hwfs : wfJson (Json.arr stats) = true)
    (hwfb : wfJson (Json.obj fbody) = true) :
    postDailyStats fs (Json.obj fbody)
      = ({ status := 200, body := Json.obj fbody },
         { fs with dailyStats := FileState.json (Json.arr
             (match findIdxPure
                 (fun s => strictEq (dateOf s) (dateOf (Json.obj fbody))) stats with
              | some i => stats.set i (Json.obj fbody)
              | none => stats ++ [Json.obj fbody])) }) := by
  have hcb : ∀ s ∈ stats, dateMatches (Json.obj fbody) s
      = Except.ok (strictEq (dateOf s) (dateOf (Json.obj fbody))) := by
    intro s hs
    obtain ⟨f, rfl⟩ := hrecs s hs
    rfl
  obtain ⟨fv, fp, fst, fd, fb⟩ := fs
  replace hfile : fd = FileState.json (Json.arr stats) := hfile
  subst hfile
  unfold postDailyStats
  simp only [readJsonFile, bind, Except.bind, asArray, findIndexJs_pure hcb, pure,
    Except.pure]
  cases hfi : findIdxPure (fun s => strictEq (dateOf s) (dateOf (Json.obj fbody))) stats with
  | some i =>
    have hwfl : wfJson (Json.arr (stats.set i (Json.obj fbody))) = true := by
      rw [wfJson_arr_iff]
      intro x hx
      rcases List.mem_or_eq_of_mem_set hx with hx | rfl
      · exact wfJson_arr_iff.mp hwfs x hx
      · exact hwfb
    simp only [writeJsonFile, jsonResp, stringifyNorm_wf _ hwfl, stringifyNorm_wf _ hwfb]
  | none =>
    have hwfl : wfJson (Json.arr (stats ++ [Json.obj fbody])) = true := by
      rw [wfJson_arr_iff]
      intro x hx
      rcases List.mem_append.mp hx with hx | hx
      · exact wfJson_arr_iff.mp hwfs x hx
      · rw [List.mem_singleton] at hx
        subst hx
        exact hwfb
    simp only [writeJsonFile, jsonResp, stringifyNorm_wf _ hwfl, stringifyNorm_wf _ hwfb]

/-- C7: daily-stats upsert: a posted record whose date matches an existing
record replaces that record (leaving exactly one record for that date in a
collection satisfying the documented at-most-one-per-date invariant); a
record with a fresh date is appended, so two posts with different fresh
dates leave both records present. -/
theorem c7_daily_stats_upsert (fs : FS) (stats : List Json)
    (bf : List (String × Json)) (d : String)
    (hfile : fs.dailyStats = FileState.json (Json.arr stats))
    (hwfs : wfJson (Json.arr stats) = true)
    (hrecs : ∀ s ∈ stats, ∃ f, s = Json.obj f)
    (hinv : distinctDates stats = true)
    (hwfb : wfJson (Json.obj bf) = true)
    (hdate : lookupProp bf "date" = some (Json.str d)) :
    (∀ i, findIdxPure (fun s => strictEq (dateOf s) (dateOf (Json.obj bf))) stats = some i →
      postDailyStats fs (Json.obj bf)
        = ({ status := 200, body := Json.obj bf },
           { fs with dailyStats := FileState.json (Json.arr (stats.set i (Json.obj bf))) })
      ∧ (stats.set i (Json.obj bf)).countP
          (fun r => strictEq (dateOf r) (dateOf (Json.obj bf))) = 1)
    ∧ ((∀ s ∈ stats, strictEq (dateOf s) (dateOf (Json.obj bf)) = false) →
      postDailyStats fs (Json.obj bf)
        = ({ status := 200, body := Json.obj bf },
           { fs with dailyStats := FileState.json (Json.arr (stats ++ [Json.obj bf])) }))
    ∧ (∀ (bf2 : List (String × Json)) (d2 : String), wfJson (Json.obj bf2) = true →
        lookupProp bf2 "date" = some (Json.str d2) → d ≠ d2 →
        (∀ s ∈ stats, strictEq (dateOf s) (dateOf (Json.obj bf)) = false) →
        (∀ s ∈ stats, strictEq (dateOf s) (dateOf (Json.obj bf2)) = false) →
        (postDailyStats (postDailyStats fs (Json.obj bf)).2 (Json.obj bf2)).2.dailyStats
          = FileState.json (Json.arr ((stats ++ [Json.obj bf]) ++ [Json.obj bf2]))
        ∧ Json.obj bf ∈ (stats ++ [Json.obj bf]) ++ [Json.obj bf2]
        ∧ Json.obj bf2 ∈ (stats ++ [Json.obj bf]) ++ [Json.obj bf2]) := by
  have hdb : dateOf (Json.obj bf) = Json.str d := by
    simp [dateOf, getFieldD, hdate]
  have hrun := postDailyStats_run fs stats bf hfile hrecs hwfs hwfb
  refine ⟨?_, ?_, ?_⟩
  · intro i hfind
    rw [hfind] at hrun
    refine ⟨hrun, ?_⟩
    obtain ⟨hi, _⟩ := findIdxPure_some hfind
    have hset : (stats.set i (Json.obj bf)).getD i Json.undefined = Json.obj bf :=
      getD_set_self_json stats _ _ hi
    have hlen : i < (stats.set i (Json.obj bf)).length := by simpa using hi
    have hmem : Json.obj bf ∈ stats.set i (Json.obj bf) := by
      refine List.mem_iff_get.mpr ⟨⟨i, hlen⟩, ?_⟩
      rw [← List.getD_eq_get _ _ hlen]
      exact hset
    refine countP_dates_one (distinctDates_set hinv hfind) hmem ?_
    rw [hdb]
    simp [strictEq]
  · intro hnone
    rw [findIdxPure_eq_none.mpr hnone] at hrun
    exact hrun
  · intro bf2 d2 hwfb2 hdate2 hne hnone1 hnone2
    have hdb2 : dateOf (Json.obj bf2) = Json.str d2 := by
      simp [dateOf, getFieldD, hdate2]
    rw [findIdxPure_eq_none.mpr hnone1] at hrun
    have hfs1 : (postDailyStats fs (Json.obj bf)).2.dailyStats
        = FileState.json (Json.arr (stats ++ [Json.obj bf])) := by
      rw [hrun]
    have hwfs1 : wfJson (Json.arr (stats ++ [Json.obj bf])) = true := by
      rw [wfJson_arr_iff]
      intro x hx
      rcases List.mem_append.mp hx with hx | hx
      · exact wfJson_arr_iff.mp hwfs x hx
      · rw [List.mem_singleton] at hx
        subst hx
        exact hwfb
    have hrecs1 : ∀ s ∈ stats ++ [Json.obj bf], ∃ f, s = Json.obj f := by
      intro s hs
      rcases List.mem_append.mp hs with hs | hs
      · exact hrecs s hs
      · rw [List.mem_singleton] at hs
        exact ⟨bf, hs⟩
    have hrun2 := postDailyStats_run (postDailyStats fs (Json.obj bf)).2
      (stats ++ [Json.obj bf]) bf2 hfs1 hrecs1 hwfs1 hwfb2
    have hnone12 : ∀ s ∈ stats ++ [Json.obj bf],
        strictEq (dateOf s) (dateOf (Json.obj bf2)) = false := by
      intro s hs
      rcases List.mem_append.mp hs with hs | hs
      · exact hnone2 s hs
      · rw [List.mem_singleton] at hs
        subst hs
        rw [hdb, hdb2]
        simp [strictEq, hne]
    rw [findIdxPure_eq_none.mpr hnone12] at hrun2
    refine ⟨by rw [hrun2], ?_, ?_⟩
    · exact List.mem_append.mpr (Or.inl (List.mem_append.mpr (Or.inr (List.mem_singleton.mpr rfl))))
    · exact List.mem_append.mpr (Or.inr (List.mem_singleton.mpr rfl))

theorem c7_daily_stats_upsert_witness :
    (postDailyStats
        { freshFS with dailyStats := FileState.json (Json.arr
            [Json.obj [("date", Json.str "2024-01-01"), ("revenue", Json.num 10)]]) }
        (Json.obj [("date", Json.str "2024-01-01"), ("revenue", Json.num 20)])
      = ({ status := 200,
           body := Json.obj [("date", Json.str "2024-01-01"), ("revenue", Json.num 20)] },
         { freshFS with dailyStats := FileState.json (Json.arr
             [Json.obj [("date", Json.str "2024-01-01"), ("revenue", Json.num 20)]]) })
      ∧ [Json.obj [("date", Json.str "2024-01-01"), ("revenue", Json.num 20)]].countP
          (fun r => strictEq (dateOf r)
            (dateOf (Json.obj [("date", Json.str "2024-01-01"), ("revenue", Json.num 20)]))) = 1)
    ∧ ((postDailyStats
          (postDailyStats { freshFS with dailyStats := FileState.json (Json.arr []) }
            (Json.obj [("date", Json.str "2024-01-01"), ("revenue", Json.num 20)])).2
          (Json.obj [("date", Json.str "2024-01-02")])).2.dailyStats
        = FileState.json (Json.arr
            (([] ++ [Json.obj [("date", Json.str "2024-01-01"), ("revenue", Json.num 20)]])
              ++ [Json.obj [("date", Json.str "2024-01-02")]]))
      ∧ Json.obj [("date", Json.str "2024-01-01"), ("revenue", Json.num 20)]
          ∈ (([] ++ [Json.obj [("date", Json.str "2024-01-01"), ("revenue", Json.num 20)]])
              ++ [Json.obj [("date", Json.str "2024-01-02")]])
      ∧ Json.obj [("date", Json.str "2024-01-02")]
          ∈ (([] ++ [Json.obj [("date", Json.str "2024-01-01"), ("revenue", Json.num 20)]])
              ++ [Json.obj [("date", Json.str "2024-01-02")]])) := by
  constructor
  · have hrecs : ∀ s ∈ [Json.obj [("date", Json.str "2024-01-01"), ("revenue", Json.num 10)]],
        ∃ f, s = Json.obj f := by
      intro s hs
      rw [List.mem_singleton] at hs
      exact ⟨_, hs⟩
    exact (c7_daily_stats_upsert _ _
      [("date", Json.str "2024-01-01"), ("revenue", Json.num 20)] "2024-01-01"
      rfl (by decide) hrecs (by decide) (by decide) rfl).1 0 (by decide)
  · have hempty : ∀ s ∈ ([] : List Json), ∃ f, s = Json.obj f := by
      intro s hs
      exact absurd hs (List.not_mem_nil s)
    have hnone : ∀ s ∈ ([] : List Json),
        strictEq (dateOf s) (dateOf (Json.obj
          [("date", Json.str "2024-01-01"), ("revenue", Json.num 20)])) = false := by
      intro s hs
      exact absurd hs (List.not_mem_nil s)
    have hnone2 : ∀ s ∈ ([] : List Json),
        strictEq (dateOf s) (dateOf (Json.obj [("date", Json.str "2024-01-02")])) = false := by
      intro s hs
      exact absurd hs (List.not_mem_nil s)
    exact ((c7_daily_stats_upsert _ []
      [("date", Json.str "2024-01-01"), ("revenue", Json.num 20)] "2024-01-01"
      rfl (by decide) hempty (by decide) (by decide) rfl).2.2
      [("date", Json.str "2024-01-02")] "2024-01-02" (by decide) rfl (by decide)
      hnone hnone2)

theorem findIndexJs_ok_pure {p : Json → Except JsErr Bool} {q : Json → Bool}
    {xs : List Json} {r : Option Nat}
    (hok : ∀ x b, p x = .ok b → q x = b)
    (h : findIndexJs p xs = .ok r) : findIdxPure q xs = r := by
  induction xs generalizing r with
  | nil =>
    simp only [findIndexJs] at h
    cases h
    rfl
  | cons x rest ih =>
    simp only [findIndexJs, bind, Except.bind, pure, Except.pure] at h
    cases hp : p x with
    | error e => rw [hp] at h; simp at h
    | ok b =>
      rw [hp] at h
      have hq : q x = b := hok x b hp
      cases b with
      | true =>
        simp only [if_true] at h
        cases h
        simp [findIdxPure, hq]
      | false =>
        simp only [Bool.false_eq_true, if_false] at h
        cases hrest : findIndexJs p rest with
        | error e => rw [hrest] at h; simp at h
        | ok r' =>
          rw [hrest] at h
          cases r' with
          | none =>
            simp only [] at h
            cases h
            simp [findIdxPure, hq, ih hrest]
          | some i0 =>
            simp only [] at h
            cases h
            simp [findIdxPure, hq, ih hrest]

theorem dateMatches_ok {body s : Json} {b : Bool} (h : dateMatches body s = .ok b) :
    strictEq (dateOf s) (dateOf body) = b := by
  cases s <;> cases body <;>
    simp_all [dateMatches, getField, bind, Except.bind, pure, Except.pure, dateOf, getFieldD]

/-- A file is either unreadable/absent or holds a well-formed parsed-JSON
document. -/
def fileWF : FileState → Bool
  | .json j => wfJson j
  | _ => true

/-- The Daily Stats invariant of the data model: whenever the daily-stats
file holds an array, it has at most one record per date. -/
def dailyStatsInvB (fs : FS) : Bool :=
  match fs.dailyStats with
  | .json (.arr xs) => distinctDates xs
  | _ => true

/-- The daily-stats file holds well-formed content. -/
def dailyStatsWF (fs : FS) : Bool :=
  fileWF fs.dailyStats

/-- The `dailyStats` field of a snapshot, when it is an array, has at most
one record per date. -/
def snapStatsOK (body : Json) : Bool :=
  match getFieldD body "dailyStats" with
  | .arr xs => distinctDates xs
  | _ => true

/-- States reachable through the API operations the claim names (daily-stats
upsert, backup save, startup restore) from a fresh data directory; request
bodies and remote snapshots are parsed JSON, hence well-formed. -/
inductive Reachable : FS → Prop
  | init : Reachable freshFS
  | upsert (fs : FS) (body : Json) (h : Reachable fs)
      (hwf : wfJson body = true) : Reachable (postDailyStats fs body).2
  | backup (fs : FS) (remote : Remote) (body : Json) (h : Reachable fs)
      (hwf : wfJson body = true) : Reachable (postBackup remote fs body).2
  | restore (fs : FS) (remote : Remote) (h : Reachable fs)
      (hpull : ∀ j, (downloadBackupFromSupabase remote).data = some j →
        wfJson j = true) : Reachable (startupRestore remote fs)

/-- Like `Reachable`, but every snapshot written through backup save or
startup restore has a duplicate-free `dailyStats` field. -/
inductive ReachableGuarded : FS → Prop
  | init : ReachableGuarded freshFS
  | upsert (fs : FS) (body : Json) (h : ReachableGuarded fs)
      (hwf : wfJson body = true) : ReachableGuarded (postDailyStats fs body).2
  | backup (fs : FS) (remote : Remote) (body : Json) (h : ReachableGuarded fs)
      (hwf : wfJson body = true) (hds : snapStatsOK body = true) :
      ReachableGuarded (postBackup remote fs body).2
  | restore (fs : FS) (remote : Remote) (h : ReachableGuarded fs)
      (hpull : ∀ j, (downloadBackupFromSupabase remote).data = some j →
        wfJson j = true ∧ snapStatsOK j = true) :
      ReachableGuarded (startupRestore remote fs)

theorem postDailyStats_inv (fs : FS) (body : Json) (hwf : wfJson body = true)
    (hfswf : dailyStatsWF fs = true) (hinv : dailyStatsInvB fs = true) :
    dailyStatsWF (postDailyStats fs body).2 = true
    ∧ dailyStatsInvB (postDailyStats fs body).2 = true := by
  obtain ⟨fv, fp, fst, fd, fb⟩ := fs
  simp only [dailyStatsWF, dailyStatsInvB] at hfswf hinv ⊢
  cases fd with
  | corrupt =>
    unfold postDailyStats
    simp only [readJsonFile]
    exact ⟨hfswf, by trivial⟩
  | ioFault =>
    unfold postDailyStats
    simp only [readJsonFile]
    exact ⟨hfswf, by trivial⟩
  | absent =>
    have hwfl : wfJson (Json.arr [body]) = true := by
      simp [wfJson, wfArr, hwf]
    unfold postDailyStats
    simp only [readJsonFile, bind, Except.bind, asArray, findIndexJs, pure, Except.pure,
      List.nil_append, writeJsonFile, stringifyNorm_wf _ hwfl]
    constructor
    · simp [fileWF, hwfl]
    · simp [distinctDates]
  | json j =>
    cases j with
    | undefined =>
      unfold postDailyStats
      simp only [readJsonFile, bind, Except.bind, asArray]
      exact ⟨hfswf, by trivial⟩
    | null =>
      unfold postDailyStats
      simp only [readJsonFile, bind, Except.bind, asArray]
      exact ⟨hfswf, by trivial⟩
    | bool b =>
      unfold postDailyStats
      simp only [readJsonFile, bind, Except.bind, asArray]
      exact ⟨hfswf, by trivial⟩
    | num n =>
      unfold postDailyStats
      simp only [readJsonFile, bind, Except.bind, asArray]
      exact ⟨hfswf, by trivial⟩
    | str s =>
      unfold postDailyStats
      simp only [readJsonFile, bind, Except.bind, asArray]
      exact ⟨hfswf, by trivial⟩
    | obj f =>
      unfold postDailyStats
      simp only [readJsonFile, bind, Except.bind, asArray]
      exact ⟨hfswf, by trivial⟩
    | arr xs =>
      have hwfxs : ∀ x ∈ xs, wfJson x = true := by
        intro x hx
        exact wfJson_arr_iff.mp (by simpa [fileWF] using hfswf) x hx
      have hdist : distinctDates xs = true := by simpa using hinv
      unfold postDailyStats
      simp only [readJsonFile, bind, Except.bind, asArray, pure, Except.pure]
      cases hfi : findIndexJs (dateMatches body) xs with
      | error e =>
        exact ⟨hfswf, hinv⟩
      | ok r =>
        have hpure : findIdxPure (fun s => strictEq (dateOf s) (dateOf body)) xs = r :=
          findIndexJs_ok_pure (fun x b hb => dateMatches_ok hb) hfi
        cases r with
        | none =>
          have hfalse : ∀ s ∈ xs, strictEq (dateOf s) (dateOf body) = false :=
            findIdxPure_eq_none.mp hpure
          have hwfl : wfJson (Json.arr (xs ++ [body])) = true := by
            rw [wfJson_arr_iff]
            intro x hx
            rcases List.mem_append.mp hx with hx | hx
            · exact hwfxs x hx
            · rw [List.mem_singleton] at hx
              subst hx
              exact hwf
          simp only [writeJsonFile, stringifyNorm_wf _ hwfl]
          constructor
          · simp [fileWF, hwfl]
          · simpa using distinctDates_append hdist hfalse
        | some i =>
          have hwfl : wfJson (Json.arr (xs.set i body)) = true := by
            rw [wfJson_arr_iff]
            intro x hx
            rcases List.mem_or_eq_of_mem_set hx with hx | rfl
            · exact hwfxs x hx
            · exact hwf
          simp only [writeJsonFile, stringifyNorm_wf _ hwfl]
          constructor
          · simp [fileWF, hwfl]
          · simpa using distinctDates_set hdist hpure

theorem postBackup_inv (remote : Remote) (fs : FS) (body : Json)
    (hwf : wfJson body = true) (hds : snapStatsOK body = true)
    (hfswf : dailyStatsWF fs = true) (hinv : dailyStatsInvB fs = true) :
    dailyStatsWF (postBackup remote fs body).2 = true
    ∧ dailyStatsInvB (postBackup remote fs body).2 = true := by
  cases body with
  | undefined => simp [wfJson] at hwf
  | null =>
    unfold postBackup
    simp only [getField, bind, Except.bind]
    simp only [dailyStatsWF, dailyStatsInvB] at hfswf hinv ⊢
    exact ⟨hfswf, hinv⟩
  | bool b =>
    unfold postBackup
    simp only [getField, bind, Except.bind, pure, Except.pure, truthy, Bool.false_eq_true,
      if_false]
    simp only [dailyStatsWF, dailyStatsInvB] at hfswf hinv ⊢
    exact ⟨hfswf, hinv⟩
  | num n =>
    unfold postBackup
    simp only [getField, bind, Except.bind, pure, Except.pure, truthy, Bool.false_eq_true,
      if_false]
    simp only [dailyStatsWF, dailyStatsInvB] at hfswf hinv ⊢
    exact ⟨hfswf, hinv⟩
  | str s =>
    unfold postBackup
    simp only [getField, bind, Except.bind, pure, Except.pure, truthy, Bool.false_eq_true,
      if_false]
    simp only [dailyStatsWF, dailyStatsInvB] at hfswf hinv ⊢
    exact ⟨hfswf, hinv⟩
  | arr xs =>
    unfold postBackup
    simp only [getField, bind, Except.bind, pure, Except.pure, truthy, Bool.false_eq_true,
      if_false]
    simp only [dailyStatsWF, dailyStatsInvB] at hfswf hinv ⊢
    exact ⟨hfswf, hinv⟩
  | obj bs =>
    obtain ⟨hresp, hback, hveh, hper, hset, hday⟩ := postBackup_obj remote fs bs
    simp only [dailyStatsWF, dailyStatsInvB] at hfswf hinv ⊢
    rw [hday]
    by_cases htr : truthy (getFieldD (Json.obj bs) "dailyStats") = true
    · rw [if_pos htr]
      have hne : getFieldD (Json.obj bs) "dailyStats" ≠ Json.undefined := by
        intro hu
        rw [hu] at htr
        simp [truthy] at htr
      have hwfd : wfJson (getFieldD (Json.obj bs) "dailyStats") = true :=
        wfJson_getFieldD _ hwf hne
      simp only [writeJsonFile, stringifyNorm_wf _ hwfd, fileWF]
      refine ⟨hwfd, ?_⟩
      rw [snapStatsOK] at hds
      cases hgd : getFieldD (Json.obj bs) "dailyStats" <;> rw [hgd] at hds <;> simp_all
    · rw [if_neg htr]
      exact ⟨hfswf, hinv⟩

theorem startupRestore_obj (pushOk : Bool) (fs : FS) (bs : List (String × Json)) :
    (startupRestore (Remote.on (PullOutcome.got (Json.obj bs)) pushOk) fs).dailyStats
      = (if truthy (getFieldD (Json.obj bs) "dailyStats")
         then writeJsonFile (getFieldD (Json.obj bs) "dailyStats") else fs.dailyStats) := by
  unfold startupRestore
  simp only [downloadBackupFromSupabase, getField, getFieldD, bind, Except.bind, pure,
    Except.pure]
  rw [if_pos (show truthy (Json.obj bs) = true from rfl)]
  by_cases hv : truthy ((lookupProp bs "vehicles").getD .undefined) = true <;>
    by_cases hp : truthy ((lookupProp bs "permanentClients").getD .undefined) = true <;>
      by_cases hs : truthy ((lookupProp bs "settings").getD .undefined) = true <;>
        by_cases hd : truthy ((lookupProp bs "dailyStats").getD .undefined) = true <;>
          simp_all

theorem startupRestore_inv (remote : Remote) (fs : FS)
    (hpull : ∀ j, (downloadBackupFromSupabase remote).data = some j →
      wfJson j = true ∧ snapStatsOK j = true)
    (hfswf : dailyStatsWF fs = true) (hinv : dailyStatsInvB fs = true) :
    dailyStatsWF (startupRestore remote fs) = true
    ∧ dailyStatsInvB (startupRestore remote fs) = true := by
  rcases remote with _ | ⟨pull, pushOk⟩
  · unfold startupRestore
    simp only [downloadBackupFromSupabase]
    exact ⟨hfswf, hinv⟩
  · rcases pull with ⟨j⟩ | _ | _
    case on.notFound =>
      unfold startupRestore
      simp only [downloadBackupFromSupabase]
      exact ⟨hfswf, hinv⟩
    case on.err =>
      unfold startupRestore
      simp only [downloadBackupFromSupabase]
      exact ⟨hfswf, hinv⟩
    case on.got =>
      obtain ⟨hwfj, hdsj⟩ := hpull j rfl
      cases j with
      | undefined => simp [wfJson] at hwfj
      | null =>
        unfold startupRestore
        simp only [downloadBackupFromSupabase, truthy, Bool.false_eq_true, if_false]
        exact ⟨hfswf, hinv⟩
      | bool b =>
        unfold startupRestore
        simp only [downloadBackupFromSupabase, getField, bind, Except.bind, pure,
          Except.pure, truthy]
        cases b with
        | false =>
          simp only [Bool.false_eq_true, if_false]
          exact ⟨hfswf, hinv⟩
        | true =>
          simp only [if_true]
          simp only [dailyStatsWF, dailyStatsInvB] at hfswf hinv ⊢
          exact ⟨hfswf, hinv⟩
      | num n =>
        unfold startupRestore
        simp only [downloadBackupFromSupabase, getField, bind, Except.bind, pure,
          Except.pure, truthy]
        by_cases hn : (n != 0) = true
        · simp only [hn, if_true]
          simp only [dailyStatsWF, dailyStatsInvB] at hfswf hinv ⊢
          exact ⟨hfswf, hinv⟩
        · rw [Bool.not_eq_true] at hn
          simp only [hn, Bool.false_eq_true, if_false]
          exact ⟨hfswf, hinv⟩
      | str s =>
        unfold startupRestore
        simp only [downloadBackupFromSupabase, getField, bind, Except.bind, pure,
          Except.pure, truthy]
        by_cases hn : (s != "") = true
        · simp only [hn, if_true]
          simp only [dailyStatsWF, dailyStatsInvB] at hfswf hinv ⊢
          exact ⟨hfswf, hinv⟩
        · rw [Bool.not_eq_true] at hn
          simp only [hn, Bool.false_eq_true, if_false]
          exact ⟨hfswf, hinv⟩
      | arr xs =>
        unfold startupRestore
        simp only [downloadBackupFromSupabase, getField, bind, Except.bind, pure,
          Except.pure, truthy, if_true]
        simp only [dailyStatsWF, dailyStatsInvB] at hfswf hinv ⊢
        exact ⟨hfswf, hinv⟩
      | obj bs =>
        have hday := startupRestore_obj pushOk fs bs
        simp only [dailyStatsWF, dailyStatsInvB] at hfswf hinv ⊢
        rw [hday]
        by_cases htr : truthy (getFieldD (Json.obj bs) "dailyStats") = true
        · rw [if_pos htr]
          have hne : getFieldD (Json.obj bs) "dailyStats" ≠ Json.undefined := by
            intro hu
            rw [hu] at htr
            simp [truthy] at htr
          have hwfd : wfJson (getFieldD (Json.obj bs) "dailyStats") = true :=
            wfJson_getFieldD _ hwfj hne
          simp only [writeJsonFile, stringifyNorm_wf _ hwfd, fileWF]
          refine ⟨hwfd, ?_⟩
          rw [snapStatsOK] at hdsj
          cases hgd : getFieldD (Json.obj bs) "dailyStats" <;> rw [hgd] at hdsj <;> simp_all
        · rw [if_neg htr]
          exact ⟨hfswf, hinv⟩

/-- C8 counterexample: the claim as stated is false: POST `/api/backup`
with a snapshot whose `dailyStats` holds two records with the same date
reaches (from a fresh data directory, through one API call) a state in
which the Daily Stats collection has two records for date "2024-01-01". -/
theorem c8_daily_stats_invariant_counterexample :
    Reachable (postBackup Remote.off freshFS
      (Json.obj [("dailyStats", Json.arr
        [Json.obj [("date", Json.str "2024-01-01")],
         Json.obj [("date", Json.str "2024-01-01")]])])).2
    ∧ dailyStatsInvB (postBackup Remote.off freshFS
      (Json.obj [("dailyStats", Json.arr
        [Json.obj [("date", Json.str "2024-01-01")],
         Json.obj [("date", Json.str "2024-01-01")]])])).2 = false := by
  constructor
  · exact Reachable.backup freshFS Remote.off _ Reachable.init (by decide)
  · decide

/-- C8 (amended): the at-most-one-record-per-date invariant of the Daily
Stats collection holds in every state reachable through daily-stats upsert,
backup save and startup restore, provided every snapshot accepted by backup
save or obtained by startup restore has a duplicate-free `dailyStats`
field; the upsert endpoint itself needs no such proviso. -/
theorem c8_daily_stats_invariant_amended (fs : FS) (h : ReachableGuarded fs) :
    dailyStatsInvB fs = true := by
  suffices hsuff : dailyStatsWF fs = true ∧ dailyStatsInvB fs = true from hsuff.2
  induction h with
  | init => exact ⟨rfl, rfl⟩
  | upsert fs body h hwf ih => exact postDailyStats_inv fs body hwf ih.1 ih.2
  | backup fs remote body h hwf hds ih => exact postBackup_inv remote fs body hwf hds ih.1 ih.2
  | restore fs remote h hpull ih => exact startupRestore_inv remote fs hpull ih.1 ih.2

theorem c8_daily_stats_invariant_amended_witness :
    dailyStatsInvB (postBackup Remote.off
      (postDailyStats freshFS (Json.obj [("date", Json.str "2024-01-01")])).2
      (Json.obj [("dailyStats", Json.arr [Json.obj [("date", Json.str "2024-01-02")]])])).2
      = true :=
  c8_daily_stats_invariant_amended _
    (ReachableGuarded.backup _ Remote.off _
      (ReachableGuarded.upsert freshFS _ ReachableGuarded.init (by decide))
      (by decide) (by decide))
